import Mathlib

/-!
Verification development for the stock_v1 backtesting core.

Shallow embedding of the Python sources `matching_engine.py`,
`backtest_engine.py` and `performance_analyzer.py`.  Monetary amounts,
prices and volumes are embedded as exact rationals (the Python code uses
IEEE floats; the claims under study are arithmetic identities that are
stated in exact arithmetic).  Wall-clock reads (`datetime.now()`) are
embedded as an explicit tick counter threaded through the functions: each
`now()` call consumes one tick.  `uuid.uuid4().hex[:8]` is embedded as an
explicit stream `ℕ → String` together with an index that advances at each
draw.  Python dicts are embedded as insertion-ordered association lists.

Identifier strings are embedded structurally:
  * `order_id = f"order_{counter}_{uuid4().hex[:8]}"` becomes
    `OrderId.mk counter tag`;
  * `trade_id = f"trade_{now}"` or `f"trade_{now}_{n}"` becomes
    `TradeId.mk tick sub`.
The rendering of those strings is injective in the components, so the
structural embedding preserves equality and inequality of the ids.
-/

namespace StockV1

/-- Trading direction of a signal / order / trade (`'buy'` / `'sell'`). -/
inductive Action
  | buy
  | sell
deriving DecidableEq, Repr

/-- Order type (`'market'` / `'limit'`, anything else is unsupported). -/
inductive OrderType
  | market
  | limit
  | other
deriving DecidableEq, Repr

/-- Order status strings of `matching_engine.py` (`"pending"`,
`"filled"`, `"partially_filled"`, `"cancelled"`).  The constructor
`part_filled` stands for the source's `"partially_filled"` string. -/
inductive OrderStatus
  | pending
  | filled
  | part_filled
  | cancelled
deriving DecidableEq, Repr

/-- Structural embedding of the string `f"order_{counter}_{uuid4().hex[:8]}"`
built in `BacktestEngine.create_order`.  `counter` is the engine's
monotone order counter, `tag` the random 8-hex-digit suffix. -/
structure OrderId where
  counter : ℕ
  tag : String
deriving DecidableEq, Repr

/-- Structural embedding of the trade-id strings
`f"trade_{datetime.now().timestamp()}"` (market fills, `sub = none`) and
`f"trade_{datetime.now().timestamp()}_{len(trades)}"` (limit fills,
`sub = some n`). -/
structure TradeId where
  tick : ℕ
  sub : Option ℕ
deriving DecidableEq, Repr

/-- The `Order` class of `matching_engine.py`.  `fill_time` is `None`
until the order fills (`datetime.now()` ticks once set). -/
structure Order where
  order_id : OrderId
  symbol : String
  action : Action
  price : ℚ
  volume : ℚ
  order_type : OrderType
  timestamp : ℕ
  status : OrderStatus := .pending
  filled_volume : ℚ := 0
  filled_price : ℚ := 0
  transaction_cost : ℚ := 0
  slippage : ℚ := 0
  fill_time : Option ℕ := none
deriving DecidableEq, Repr

/-- The trade dict built by `match_market_order` / `match_limit_order`.
Market-order trades carry a `"slippage"` key (`slippage = some s`);
limit-order trades do not (`slippage = none`). -/
structure Trade where
  trade_id : TradeId
  order_id : OrderId
  symbol : String
  action : Action
  price : ℚ
  volume : ℚ
  transaction_cost : ℚ
  timestamp : ℕ
  order_type : OrderType
  slippage : Option ℚ
deriving DecidableEq, Repr

/-- The matching-engine state: `self.params` (only the two rates are read
by any matching code; `min_volume` / `max_volume_per_trade` are never
used), `self.order_book` and `self.trades`. -/
structure MEState where
  transaction_cost : ℚ
  slippage : ℚ
  buyBook : List Order
  sellBook : List Order
  trades : List Trade
deriving Repr

/-- A fresh `MatchingEngine()` after `set_params` installed the backtest
engine's two rates (or `reset()`: both book sides and the trade history
cleared). -/
def MEState.fresh (txCost slip : ℚ) : MEState :=
  { transaction_cost := txCost, slippage := slip
    buyBook := [], sellBook := [], trades := [] }

/-- `MatchingEngine.match_market_order`: fills unconditionally at
`price ± price*slippage`, computes the fee, marks the order `filled` and
returns the single trade.  Consumes two clock ticks (`fill_time` and the
trade id each read `datetime.now()`).  Result: updated order, the trade,
next clock value. -/
def match_market_order (me : MEState) (clock : ℕ) (order : Order) :
    Order × Trade × ℕ :=
  let slippage := order.price * me.slippage
  let fill_price :=
    match order.action with
    | .buy => order.price + slippage
    | .sell => order.price - slippage
  let transaction_cost := fill_price * order.volume * me.transaction_cost
  let order' : Order :=
    { order with
        status := .filled
        filled_volume := order.volume
        filled_price := fill_price
        transaction_cost := transaction_cost
        slippage := slippage
        fill_time := some clock }
  let trade : Trade :=
    { trade_id := ⟨clock + 1, none⟩
      order_id := order.order_id
      symbol := order.symbol
      action := order.action
      price := fill_price
      volume := order.volume
      transaction_cost := transaction_cost
      timestamp := clock
      order_type := order.order_type
      slippage := some slippage }
  (order', trade, clock + 2)

/-- State threaded through the matching loop of `match_limit_order`:
the opposite-side book being scanned, the (mutated) aggressor order, the
aggressor's `remaining_volume`, the trades produced by this call, and the
clock. -/
structure LimitLoopSt where
  book : List Order
  agg : Order
  remaining : ℚ
  trades : List Trade
  clock : ℕ
deriving Repr

/-- One pass of the Python `for counter_order in book:` loop of
`match_limit_order`, for an aggressor of direction `side` scanning the
opposite side.  `crosses counterPrice limitPrice` is
`counter.price ≤ order.price` for a buy aggressor and
`counter.price ≥ order.price` for a sell aggressor.

CPython `for` iterates by an internal index; `list.remove` of the
current element inside the body shifts the later elements down while the
index still advances, so the element after a removed one is skipped.
The embedding reproduces this exactly: an index `i` that advances by one
per iteration, with `eraseIdx i` on full fills.  `fuel` bounds the
number of iterations; `fuel = book.length` is exact because the index
grows by one per iteration and the book never grows. -/
def matchLoop (me : MEState) (crosses : ℚ → ℚ → Bool) :
    ℕ → ℕ → LimitLoopSt → LimitLoopSt
  | 0, _, s => s
  | fuel + 1, i, s =>
    if h : i < s.book.length then
      let counter := s.book.get ⟨i, h⟩
      if crosses counter.price s.agg.price ∧ 0 < s.remaining then
        let fill_volume := min s.remaining (counter.volume - counter.filled_volume)
        let fill_price := counter.price
        let transaction_cost := fill_price * fill_volume * me.transaction_cost
        let agg' : Order :=
          { s.agg with
              filled_volume := s.agg.filled_volume + fill_volume
              filled_price := fill_price
              transaction_cost := s.agg.transaction_cost + transaction_cost }
        let counter' : Order :=
          { counter with
              filled_volume := counter.filled_volume + fill_volume
              filled_price := fill_price
              transaction_cost := counter.transaction_cost + transaction_cost }
        let trade : Trade :=
          { trade_id := ⟨s.clock, some s.trades.length⟩
            order_id := s.agg.order_id
            symbol := s.agg.symbol
            action := s.agg.action
            price := fill_price
            volume := fill_volume
            transaction_cost := transaction_cost
            timestamp := s.clock + 1
            order_type := s.agg.order_type
            slippage := none }
        if counter.volume ≤ counter'.filled_volume then
          -- fully filled resting order: marked `filled`, `fill_time` set,
          -- then removed from the book (the next book element is skipped).
          matchLoop me crosses fuel (i + 1)
            { book := ((s.book.set i
                { counter' with status := .filled, fill_time := some (s.clock + 2) }).eraseIdx i)
              agg := agg'
              remaining := s.remaining - fill_volume
              trades := s.trades ++ [trade]
              clock := s.clock + 3 }
        else
          matchLoop me crosses fuel (i + 1)
            { book := s.book.set i counter'
              agg := agg'
              remaining := s.remaining - fill_volume
              trades := s.trades ++ [trade]
              clock := s.clock + 2 }
      else
        matchLoop me crosses fuel (i + 1) s
    else s

/-- `list.remove(order)` on the side book holding the aggressor:
identity-based removal of the first entry whose id is the aggressor's. -/
def removeById (oid : OrderId) : List Order → List Order
  | [] => []
  | o :: os => if o.order_id = oid then os else o :: removeById oid os

/-- In-place mutation of the aggressor object that also lives in its side
book: the first entry with the aggressor's id becomes the updated value. -/
def replaceById (a : Order) : List Order → List Order
  | [] => []
  | o :: os => if o.order_id = a.order_id then a :: os else o :: replaceById a os

/-- Result of `match_limit_order`: the two books after matching, the
final aggressor object, the trades returned, the next clock value. -/
structure LimitMatchResult where
  buyBook : List Order
  sellBook : List Order
  agg : Order
  trades : List Trade
  clock : ℕ
deriving Repr

/-- `MatchingEngine.match_limit_order` (the aggressor is already in its
side book, which `add_order` appended to and re-sorted).  A buy scans the
sell book (crossing while `sell.price ≤ buy.price`), a sell scans the buy
book (crossing while `buy.price ≥ sell.price`).  After the scan the
aggressor is marked `filled` and removed from its book when fully filled,
marked `partially_filled` (and its in-book object updated) when partially
filled, and left untouched when nothing filled. -/
def match_limit_order (me : MEState) (clock : ℕ) (order : Order) :
    LimitMatchResult :=
  match order.action with
  | .buy =>
    let s := matchLoop me (fun cp lp => cp ≤ lp) me.sellBook.length 0
      { book := me.sellBook, agg := order, remaining := order.volume
        trades := [], clock := clock }
    if 0 < s.agg.filled_volume then
      if order.volume ≤ s.agg.filled_volume then
        let a := { s.agg with status := .filled, fill_time := some s.clock }
        { buyBook := removeById a.order_id me.buyBook, sellBook := s.book
          agg := a, trades := s.trades, clock := s.clock + 1 }
      else
        let a := { s.agg with status := .part_filled }
        { buyBook := replaceById a me.buyBook, sellBook := s.book
          agg := a, trades := s.trades, clock := s.clock }
    else
      { buyBook := me.buyBook, sellBook := s.book, agg := s.agg
        trades := s.trades, clock := s.clock }
  | .sell =>
    let s := matchLoop me (fun cp lp => lp ≤ cp) me.buyBook.length 0
      { book := me.buyBook, agg := order, remaining := order.volume
        trades := [], clock := clock }
    if 0 < s.agg.filled_volume then
      if order.volume ≤ s.agg.filled_volume then
        let a := { s.agg with status := .filled, fill_time := some s.clock }
        { buyBook := s.book, sellBook := removeById a.order_id me.sellBook
          agg := a, trades := s.trades, clock := s.clock + 1 }
      else
        let a := { s.agg with status := .part_filled }
        { buyBook := s.book, sellBook := replaceById a me.sellBook
          agg := a, trades := s.trades, clock := s.clock }
    else
      { buyBook := s.book, sellBook := me.sellBook, agg := s.agg
        trades := s.trades, clock := s.clock }

/-- Stable insertion used to embed Python's stable `list.sort`:
an element passes over exactly the strictly-smaller-priority elements,
so equal keys keep their original (insertion) order. -/
def insertByLt (lt : Order → Order → Bool) (x : Order) : List Order → List Order
  | [] => [x]
  | y :: ys => if lt y x then y :: insertByLt lt x ys else x :: y :: ys

/-- Stable sort (insertion sort), embedding `list.sort(key=...)`. -/
def sortByLt (lt : Order → Order → Bool) : List Order → List Order
  | [] => []
  | x :: xs => insertByLt lt x (sortByLt lt xs)

/-- `MatchingEngine.sort_order_book`: buy side descending by price, sell
side ascending by price, ties keeping insertion order (stable sort). -/
def sort_order_book (me : MEState) : MEState :=
  { me with
      buyBook := sortByLt (fun a b => b.price < a.price) me.buyBook
      sellBook := sortByLt (fun a b => a.price < b.price) me.sellBook }

/-- Return value of `MatchingEngine.add_order`: a single trade dict for a
market order, a (possibly empty) trade list for a limit order, `None` for
an unsupported order type. -/
inductive AddResult
  | market (t : Trade)
  | limit (ts : List Trade)
  | unsupported
deriving DecidableEq, Repr

/-- `MatchingEngine.add_order`.  Market orders are matched directly and
never touch the books.  Limit orders are appended to their side's book,
both sides are re-sorted, and the order is matched.  Any other order type
logs an error and returns `None` with no book mutation. -/
def add_order (me : MEState) (clock : ℕ) (order : Order) :
    MEState × ℕ × AddResult :=
  match order.order_type with
  | .market =>
    let r := match_market_order me clock order
    ({ me with trades := me.trades ++ [r.2.1] }, r.2.2, .market r.2.1)
  | .limit =>
    let booked :=
      match order.action with
      | .buy => { me with buyBook := me.buyBook ++ [order] }
      | .sell => { me with sellBook := me.sellBook ++ [order] }
    let sorted := sort_order_book booked
    let r := match_limit_order sorted clock order
    ({ sorted with
        buyBook := r.buyBook
        sellBook := r.sellBook
        trades := sorted.trades ++ r.trades },
      r.clock, .limit r.trades)
  | .other => (me, clock, .unsupported)

/-! ### Backtest engine (`backtest_engine.py`) -/

/-- A per-symbol position entry of `self.account["positions"]`. -/
structure Position where
  volume : ℚ
  avg_price : ℚ
  market_value : ℚ
deriving DecidableEq, Repr

/-- `self.account`.  `positions` embeds the Python dict as an
insertion-ordered association list. -/
structure Account where
  cash : ℚ
  total_equity : ℚ
  positions : List (String × Position)
  frozen_cash : ℚ
  pnl : ℚ
  pnl_percentage : ℚ
deriving DecidableEq, Repr

/-- Dict lookup `positions[symbol]` / `symbol in positions`. -/
def posLookup (ps : List (String × Position)) (sym : String) : Option Position :=
  (ps.find? (fun e => e.1 = sym)).map (fun e => e.2)

/-- Dict assignment `positions[symbol] = p`: updates the existing key in
place, otherwise appends (Python dicts keep insertion order). -/
def posSet (ps : List (String × Position)) (sym : String) (p : Position) :
    List (String × Position) :=
  if (ps.find? (fun e => e.1 = sym)).isSome then
    ps.map (fun e => if e.1 = sym then (sym, p) else e)
  else
    ps ++ [(sym, p)]

/-- `del positions[symbol]`. -/
def posDelete (ps : List (String × Position)) (sym : String) :
    List (String × Position) :=
  ps.filter (fun e => ¬ (e.1 = sym))

/-- The backtest parameters read by the simulation core
(`self.params`): `initial_cash`, `transaction_cost`, `slippage` and the
sell-only `stamp_tax` rate.  (`start_date`/`end_date`/`frequency`/
`max_position_percentage`/`commission_rate` are consumed by data loading,
configuration checks and the strategy, not by the accounting core.) -/
structure BTParams where
  initial_cash : ℚ
  transaction_cost : ℚ
  slippage : ℚ
  stamp_tax : ℚ
deriving DecidableEq, Repr

/-- The account right after construction / `reset()`. -/
def Account.fresh (p : BTParams) : Account :=
  { cash := p.initial_cash, total_equity := p.initial_cash, positions := []
    frozen_cash := 0, pnl := 0, pnl_percentage := 0 }

/-- One historical bar.  Only `date` (as a timestamp tick), `code` and
`close` are read by the accounting core; the OHLCV fields are carried for
the strategy. -/
structure Bar where
  date : ℕ
  code : String
  openPrice : ℚ
  high : ℚ
  low : ℚ
  close : ℚ
  volume : ℚ
deriving DecidableEq, Repr

/-- A strategy signal.  `price = none` / `volume = none` mean the engine
resolves them (bar close / `calculate_position_size`).  The engine reads
`signal.get("order_type", "market")`; strategies that omit the key are
embedded as emitting `.market`. -/
structure Signal where
  symbol : String
  action : Action
  price : Option ℚ
  volume : Option ℚ
  order_type : OrderType
deriving DecidableEq, Repr

/-- One `account_history` entry built by `record_account_state`. -/
structure EquitySample where
  timestamp : ℕ
  cash : ℚ
  total_equity : ℚ
  pnl : ℚ
  pnl_percentage : ℚ
deriving DecidableEq, Repr

/-- `BacktestEngine.update_account`: apply one trade to the ledger.
Buy: debit `price*volume + transaction_cost`, add to / create the
position with weighted-average cost.  Sell: levy the sell-only stamp tax,
credit the net proceeds, shrink the position (the whole entry is deleted
when `current_volume <= volume`), leaving `avg_price` untouched. -/
def update_account (p : BTParams) (acc : Account) (trade : Trade)
    (action : Action) : Account :=
  let symbol := trade.symbol
  let price := trade.price
  let volume := trade.volume
  let transaction_cost := trade.transaction_cost
  match action with
  | .buy =>
    let total_cost := price * volume + transaction_cost
    let cash' := acc.cash - total_cost
    let positions' :=
      match posLookup acc.positions symbol with
      | some pos =>
        let new_volume := pos.volume + volume
        let new_avg_price :=
          (pos.avg_price * pos.volume + price * volume) / new_volume
        posSet acc.positions symbol
          { volume := new_volume, avg_price := new_avg_price
            market_value := new_volume * price }
      | none =>
        posSet acc.positions symbol
          { volume := volume, avg_price := price
            market_value := volume * price }
    { acc with cash := cash', positions := positions' }
  | .sell =>
    let stamp_tax := price * volume * p.stamp_tax
    let total_cost := transaction_cost + stamp_tax
    let total_revenue := price * volume - total_cost
    let cash' := acc.cash + total_revenue
    let positions' :=
      match posLookup acc.positions symbol with
      | some pos =>
        if pos.volume ≤ volume then
          posDelete acc.positions symbol
        else
          posSet acc.positions symbol
            { volume := pos.volume - volume, avg_price := pos.avg_price
              market_value := (pos.volume - volume) * price }
      | none => acc.positions
    { acc with cash := cash', positions := positions' }

/-- `BacktestEngine.update_account_equity` (the per-bar mark-to-market
step): every held position is re-marked — at the bar's close when its
symbol is the bar's symbol, else at its own average cost — and
`total_equity`, `pnl`, `pnl_percentage` are recomputed. -/
def update_account_equity (p : BTParams) (acc : Account) (bar : Bar) :
    Account :=
  let positions' := acc.positions.map (fun e =>
    let current_price := if e.1 = bar.code then bar.close else e.2.avg_price
    (e.1, { e.2 with market_value := e.2.volume * current_price }))
  let total_market_value := (positions'.map (fun e => e.2.market_value)).sum
  let total_equity := acc.cash + total_market_value
  let pnl := total_equity - p.initial_cash
  { acc with
      positions := positions'
      total_equity := total_equity
      pnl := pnl
      pnl_percentage := pnl / p.initial_cash * 100 }

/-- Price resolution of `create_order`: the signal's explicit price,
else the current bar's close. -/
def resolve_price (sig : Signal) (bar : Bar) : ℚ :=
  match sig.price with
  | some pr => pr
  | none => bar.close

/-- Volume resolution of `create_order`: the signal's explicit volume,
else `strategy.calculate_position_size(account, price)`. -/
def resolve_volume (calcSize : Account → ℚ → ℚ) (acc : Account)
    (sig : Signal) (price : ℚ) : ℚ :=
  match sig.volume with
  | some v => v
  | none => calcSize acc price

/-- `BacktestEngine.create_order`.  The order counter is bumped before
any check (also for rejected signals).  Price and volume are resolved
(bar close / `strategy.calculate_position_size`); a buy whose projected
cost `price*volume*(1+cost_rate+slippage_rate)` exceeds available cash,
and a sell whose symbol has no position or whose position volume is
below the requested volume, are rejected with a warning and yield no
order.  Result: `(new counter, new uuid index, order?)`. -/
def create_order (p : BTParams) (calcSize : Account → ℚ → ℚ)
    (uuid : ℕ → String) (acc : Account) (counter uuidIdx : ℕ)
    (sig : Signal) (bar : Bar) : ℕ × ℕ × Option Order :=
  let counter' := counter + 1
  let price := resolve_price sig bar
  let volume := resolve_volume calcSize acc sig price
  let rejected : Bool :=
    match sig.action with
    | .buy =>
      let required_cash := price * volume * (1 + p.transaction_cost + p.slippage)
      decide (acc.cash < required_cash)
    | .sell =>
      match posLookup acc.positions sig.symbol with
      | none => true
      | some pos => decide (pos.volume < volume)
  if rejected then
    (counter', uuidIdx, none)
  else
    (counter', uuidIdx + 1, some
      { order_id := ⟨counter', uuid uuidIdx⟩
        symbol := sig.symbol
        action := sig.action
        price := price
        volume := volume
        order_type := sig.order_type
        timestamp := bar.date })

/-- The engine state mutated by `BacktestEngine.run`.  Only the result
fields the claims quantify over are carried (`account_history` and
`trades`; the `orders` / `signals` / `positions_history` result lists
and the stored `performance_metrics` are write-only for the loop). -/
structure BTState where
  account : Account
  me : MEState
  tradesRes : List Trade
  accountHistory : List EquitySample
  orderCounter : ℕ
  clock : ℕ
  uuidIdx : ℕ
deriving Repr

/-- `BacktestEngine.record_account_state`: appends the snapshot with the
current bar's date as timestamp; the wall clock is used as the timestamp
only when the step index is out of range (empty data set).  One clock
tick is consumed either way (`dict.get`'s `datetime.now()` default
argument is evaluated eagerly in Python).  Throughout, the tick counter
is a monotone abstraction of the wall clock, not an exact count of
`now()` calls — no claim depends on particular tick values. -/
def record_account_state (st : BTState) (data : List Bar) (step : ℕ) :
    BTState :=
  let t := match data.get? step with
    | some bar => bar.date
    | none => st.clock
  { st with
      clock := st.clock + 1
      accountHistory := st.accountHistory ++
        [{ timestamp := t
           cash := st.account.cash
           total_equity := st.account.total_equity
           pnl := st.account.pnl
           pnl_percentage := st.account.pnl_percentage }] }

/-- The trades the loop extracts from an `add_order` result
(`process_trade_results` wraps a single market trade into a list; `None`
and an empty limit list both mean no trade). -/
def tradesOfAddResult : AddResult → List Trade
  | .market t => [t]
  | .limit ts => ts
  | .unsupported => []

/-- The per-signal half of `BacktestEngine.execute_strategy`: build the
order (counter bumps even on rejection), submit it to the matching
engine, and apply every resulting trade to the ledger, re-stamping it
with the bar's date and appending it to the trade history. -/
def processSignal (p : BTParams) (calcSize : Account → ℚ → ℚ)
    (uuid : ℕ → String) (bar : Bar) (st : BTState) (sig : Signal) :
    BTState :=
  let r := create_order p calcSize uuid st.account st.orderCounter st.uuidIdx sig bar
  match r.2.2 with
  | none => { st with orderCounter := r.1, uuidIdx := r.2.1 }
  | some order =>
    let m := add_order st.me st.clock order
    let trades : List Trade := tradesOfAddResult m.2.2
    let account' := trades.foldl
      (fun a t => update_account p a t order.action) st.account
    { st with
        orderCounter := r.1
        uuidIdx := r.2.1
        me := m.1
        clock := m.2.1
        account := account'
        tradesRes := st.tradesRes ++
          trades.map (fun t => { t with timestamp := bar.date }) }

/-- One iteration of the `run` main loop at step `step`: snapshot the
account, run the strategy on the bar, process its signals in order, then
mark to market. -/
def barStep (p : BTParams) (strategy : Bar → Account → List Signal)
    (calcSize : Account → ℚ → ℚ) (uuid : ℕ → String) (data : List Bar)
    (st : BTState) (step : ℕ) : BTState :=
  match data.get? step with
  | none => st
  | some bar =>
    let st₁ := record_account_state st data step
    let signals := strategy bar st₁.account
    let st₂ := signals.foldl (processSignal p calcSize uuid bar) st₁
    { st₂ with account := update_account_equity p st₂.account bar }

/-- `initialize()` followed by the `run()` main loop: reset the account,
results and matching engine, record the bar-0 snapshot, iterate the bar
steps, record the final snapshot.  `clock` is the wall-clock tick at
which the run starts, `uuidIdx` the position already consumed in the
uuid stream.  (The strategy is embedded as a pure function, and the
stored `performance_metrics` are a pure function of the returned history
and trades — see `calculate_performance_metrics`.) -/
def run (p : BTParams) (strategy : Bar → Account → List Signal)
    (calcSize : Account → ℚ → ℚ) (uuid : ℕ → String) (data : List Bar)
    (clock uuidIdx : ℕ) : BTState :=
  let st0 : BTState :=
    { account := Account.fresh p
      me := MEState.fresh p.transaction_cost p.slippage
      tradesRes := []
      accountHistory := []
      orderCounter := 0
      clock := clock
      uuidIdx := uuidIdx }
  -- initialize(): record_account_state with current_step = 0
  let st1 := record_account_state st0 data 0
  -- main loop over the bars
  let st2 := (List.range data.length).foldl
    (barStep p strategy calcSize uuid data) st1
  -- final record_account_state (current_step is the last bar's index)
  record_account_state st2 data (data.length - 1)

/-! ### Performance metrics
(`BacktestEngine.calculate_performance_metrics` and
`PerformanceAnalyzer.calculate_return_metrics`.) -/

/-- `series.pct_change().dropna()`: `r_i = x_i / x_{i-1} - 1` for
`i ≥ 1`.  (Division by a zero equity yields `±inf` in pandas and `0`
here; no claim involves zero equities.) -/
def returnsOf : List ℚ → List ℚ
  | [] => []
  | x :: xs => List.zipWith (fun prev cur => cur / prev - 1) (x :: xs) xs

/-- `(1 + returns).cumprod()` with running product `acc`. -/
def cumprodFrom (acc : ℚ) : List ℚ → List ℚ
  | [] => []
  | x :: xs => (acc * x) :: cumprodFrom (acc * x) xs

/-- `series.expanding(min_periods=1).max()` continued from peak `m`. -/
def runningMaxFrom (m : ℚ) : List ℚ → List ℚ
  | [] => []
  | x :: xs => max m x :: runningMaxFrom (max m x) xs

/-- `series.expanding(min_periods=1).max()`. -/
def runningMax : List ℚ → List ℚ
  | [] => []
  | x :: xs => x :: runningMaxFrom x xs

/-- `series.min()` (the series is nonempty wherever this is used). -/
def listMin : List ℚ → ℚ
  | [] => 0
  | x :: xs => xs.foldl min x

/-- `round(x, 2)`.  (Python rounds floats half-to-even; the exact
rational embedding rounds half-up.  No claim depends on the behaviour at
exact half-way points.) -/
def round2 (x : ℚ) : ℚ := ((round (x * 100) : ℤ) : ℚ) / 100

/-- `round(x, 4)`. -/
def round4 (x : ℚ) : ℚ := ((round (x * 10000) : ℤ) : ℚ) / 10000

/-- The win/loss classifier of `calculate_performance_metrics`
(line 733): a trade is counted as winning when
`(action == "buy" and price > price) or (action == "sell" and price < price)`
— each trade's price is compared against its own price. -/
def winning_trades (trades : List Trade) : ℕ :=
  (trades.filter (fun t =>
    (t.action == Action.buy && decide (t.price < t.price)) ||
    (t.action == Action.sell && decide (t.price < t.price)))).length

/-- The metrics dict stored by `calculate_performance_metrics`.  The
annualized / volatility fields of the source (`annual_return`,
`volatility`, `sharpe_ratio`, `sortino_ratio`, `profit_loss_ratio`) take
irrational values (real powers and square roots); no claim refers to
them and they are not represented here. -/
structure PerfMetrics where
  total_return : ℚ
  max_drawdown : ℚ
  win_rate : ℚ
  total_trades : ℕ
  avg_trade_return : ℚ
  trading_days : ℕ
deriving DecidableEq, Repr

/-- `BacktestEngine.calculate_performance_metrics`.  With an empty
account history, or a return series that is empty after `dropna()` (a
single sample), the source logs a warning and returns early, leaving
`results["performance_metrics"]` at its empty `{}` value and raising
nothing — embedded as `none`.  Otherwise the metrics dict is computed
and stored — embedded as `some`. -/
def calculate_performance_metrics (history : List EquitySample)
    (trades : List Trade) : Option PerfMetrics :=
  match history with
  | [] => none
  | first :: rest =>
    let equity := (first :: rest).map (fun s => s.total_equity)
    let returns := returnsOf equity
    match returns with
    | [] => none
    | _ :: _ =>
      let total_return := (equity.getLastD 0 / first.total_equity - 1) * 100
      let cumulative_returns := cumprodFrom 1 (returns.map (fun r => 1 + r))
      let peak := runningMax cumulative_returns
      let drawdown := List.zipWith (fun c pk => (c - pk) / pk) cumulative_returns peak
      let max_drawdown := listMin drawdown * 100
      let total_trades := trades.length
      let win_rate : ℚ :=
        if 0 < total_trades then (winning_trades trades : ℚ) / total_trades * 100 else 0
      some
        { total_return := round2 total_return
          max_drawdown := round2 max_drawdown
          win_rate := round2 win_rate
          total_trades := total_trades
          avg_trade_return := round4 (returns.sum / returns.length * 100)
          trading_days := (first :: rest).length }

/-- The fields of `PerformanceAnalyzer.calculate_return_metrics` with
rational values.  `annual_return_exponent` carries the value
`annualization_factor / len(daily_returns)` whose computation is the
division that raises `ZeroDivisionError` on an empty return series (the
power itself is irrational and not represented; the remaining fields of
the source dict are likewise omitted). -/
structure ReturnMetrics where
  total_return : ℚ
  annual_return_exponent : ℚ
  avg_daily_return : ℚ
deriving DecidableEq, Repr

/-- `PerformanceAnalyzer.calculate_return_metrics` on the
`total_equity` column.  `none` embeds an exception escaping the call:
`IndexError` from `equity.iloc[-1]` on an empty column, or
`ZeroDivisionError` from `annualization_factor / len(daily_returns)`
when the return series is empty (a single sample). -/
def calculate_return_metrics (equity : List ℚ) : Option ReturnMetrics :=
  match equity with
  | [] => none
  | first :: rest =>
    let total_return := ((first :: rest).getLastD 0 / first - 1) * 100
    let daily_returns := returnsOf (first :: rest)
    match daily_returns with
    | [] => none
    | _ :: _ =>
      some
        { total_return := round2 total_return
          annual_return_exponent := 252 / (daily_returns.length : ℚ)
          avg_daily_return := round4 (daily_returns.sum / daily_returns.length * 100) }

/-- Outcome of `PerformanceAnalyzer.analyze`. -/
inductive AnalyzeOutcome
  | raised
  | empty_result
  | metrics (m : ReturnMetrics)
deriving DecidableEq, Repr

/-- `PerformanceAnalyzer.analyze` restricted to the return-metrics pass:
an empty account history is caught up front (`return {}` — the empty
metrics object, no exception); otherwise `calculate_return_metrics`
runs, and any exception it raises propagates to the caller. -/
def analyze (equity : List ℚ) : AnalyzeOutcome :=
  if equity.isEmpty then .empty_result
  else
    match calculate_return_metrics equity with
    | none => .raised
    | some m => .metrics m

/-! ### Observables
For the determinism analysis: the wall clock enters the run only through
trade ids and `fill_time`, and the uuid stream only through the random
order-id suffix.  The projections below drop exactly those fields. -/

/-- An order minus the random id suffix and `fill_time`, keeping the
deterministic counter component of the id. -/
structure OrderObs where
  counter : ℕ
  symbol : String
  action : Action
  price : ℚ
  volume : ℚ
  order_type : OrderType
  timestamp : ℕ
  status : OrderStatus
  filled_volume : ℚ
  filled_price : ℚ
  transaction_cost : ℚ
  slippage : ℚ
deriving DecidableEq, Repr

/-- Projection of an order onto its deterministic fields. -/
def stripOrder (o : Order) : OrderObs :=
  { counter := o.order_id.counter, symbol := o.symbol, action := o.action
    price := o.price, volume := o.volume, order_type := o.order_type
    timestamp := o.timestamp, status := o.status
    filled_volume := o.filled_volume, filled_price := o.filled_price
    transaction_cost := o.transaction_cost, slippage := o.slippage }

/-- A trade minus `trade_id`, `order_id` and `timestamp`. -/
structure TradeCore where
  symbol : String
  action : Action
  price : ℚ
  volume : ℚ
  transaction_cost : ℚ
  order_type : OrderType
  slippage : Option ℚ
deriving DecidableEq, Repr

/-- Projection of a trade onto its economic fields. -/
def tradeCore (t : Trade) : TradeCore :=
  { symbol := t.symbol, action := t.action, price := t.price
    volume := t.volume, transaction_cost := t.transaction_cost
    order_type := t.order_type, slippage := t.slippage }

/-- A trade minus `trade_id` and `order_id` only (the engine re-stamps
recorded trades with the bar date, so their timestamps are
deterministic). -/
def stripTrade (t : Trade) : TradeCore × ℕ := (tradeCore t, t.timestamp)

/-- The deterministic projection of the matching-engine state. -/
def meObs (me : MEState) : ℚ × ℚ × List OrderObs × List OrderObs :=
  (me.transaction_cost, me.slippage,
    me.buyBook.map stripOrder, me.sellBook.map stripOrder)

/-- Two run states that agree on everything the wall clock and the uuid
stream cannot influence. -/
def StateRel (s₁ s₂ : BTState) : Prop :=
  s₁.account = s₂.account ∧
  s₁.accountHistory = s₂.accountHistory ∧
  s₁.tradesRes.map stripTrade = s₂.tradesRes.map stripTrade ∧
  s₁.orderCounter = s₂.orderCounter ∧
  meObs s₁.me = meObs s₂.me

/-- Resting orders carry id counters no larger than the engine's order
counter (each new order gets the freshly bumped counter, so its id never
collides with a resting order's id). -/
def CounterInv (st : BTState) : Prop :=
  ∀ o ∈ st.me.buyBook ++ st.me.sellBook, o.order_id.counter ≤ st.orderCounter

/-! ### Concrete instances used by witnesses and counterexamples -/

/-- A position-size callback (strategies under test supply explicit
volumes, so it is never consulted). -/
def calc0 : Account → ℚ → ℚ := fun _ _ => 0

/-- A constant uuid stream. -/
def uuid0 : ℕ → String := fun _ => "deadbeef"

/-- The spec's scenario parameters: initial cash 100,000, cost rate
0.0003, slippage 0.0001, stamp tax 0.001. -/
def p100k : BTParams :=
  { initial_cash := 100000, transaction_cost := 3/10000
    slippage := 1/10000, stamp_tax := 1/1000 }

/-- A fresh matching engine configured with the scenario rates. -/
def me100k : MEState := MEState.fresh (3/10000) (1/10000)

/-- The scenario's market buy: 100 shares at 10.00. -/
def ordBuy100 : Order :=
  { order_id := ⟨1, "deadbeef"⟩, symbol := "AAA", action := .buy
    price := 10, volume := 100, order_type := .market, timestamp := 0 }

/-- A resting limit sell, 100 shares at 9.00. -/
def c3sell (c : ℕ) : Order :=
  { order_id := ⟨c, "deadbeef"⟩, symbol := "AAA", action := .sell
    price := 9, volume := 100, order_type := .limit, timestamp := 0 }

/-- Engine whose sell book holds two crossing resting sells (both 100
shares at 9.00, insertion order ids 2 then 3). -/
def c3me : MEState := { me100k with sellBook := [c3sell 2, c3sell 3] }

/-- A limit buy for 200 shares at 10.00 — enough to consume both
resting sells if every crossing counter-order were considered. -/
def c3buy : Order :=
  { order_id := ⟨4, "deadbeef"⟩, symbol := "AAA", action := .buy
    price := 10, volume := 200, order_type := .limit, timestamp := 0 }

/-- The matching result of the two-sell scenario. -/
def c3res : MEState × ℕ × AddResult := add_order c3me 0 c3buy

/-- The trades returned for the two-sell scenario. -/
def c3trades : List Trade :=
  match c3res.2.2 with
  | .limit ts => ts
  | .market t => [t]
  | .unsupported => []

/-- Engine with a single resting sell (100 shares at 9.00). -/
def c2me : MEState := { me100k with sellBook := [c3sell 2] }

/-- A limit buy for 50 shares at 10.00, crossing the resting sell. -/
def c2buy : Order :=
  { order_id := ⟨4, "deadbeef"⟩, symbol := "AAA", action := .buy
    price := 10, volume := 50, order_type := .limit, timestamp := 0 }

/-- Trades produced by matching `c2buy` against `c2me`. -/
def c2trades : List Trade := (match_limit_order c2me 0 c2buy).trades

/-- A junk default trade (never reached). -/
def tradeDefault : Trade :=
  { trade_id := ⟨0, none⟩, order_id := ⟨0, ""⟩, symbol := "", action := .buy
    price := 0, volume := 0, transaction_cost := 0, timestamp := 0
    order_type := .market, slippage := none }

/-- An account holding 100 shares of AAA at average cost 9.00. -/
def c6acc : Account :=
  { cash := 1000, total_equity := 0
    positions := [("AAA", { volume := 100, avg_price := 9, market_value := 900 })]
    frozen_cash := 0, pnl := 0, pnl_percentage := 0 }

/-- A sell fill: 100 shares of AAA at 10.00, fee 0.30. -/
def c6trade : Trade :=
  { trade_id := ⟨0, none⟩, order_id := ⟨1, "deadbeef"⟩, symbol := "AAA"
    action := .sell, price := 10, volume := 100, transaction_cost := 3/10
    timestamp := 0, order_type := .market, slippage := none }

/-- The same sell for only 40 shares (partial liquidation). -/
def c6trade40 : Trade := { c6trade with volume := 40 }

/-- The spec's insufficient-funds scenario: cash = 100. -/
def c5acc : Account := { Account.fresh p100k with cash := 100 }

/-- A run state holding the insufficient-funds account. -/
def c5st : BTState :=
  { account := c5acc, me := me100k, tradesRes := [], accountHistory := []
    orderCounter := 0, clock := 0, uuidIdx := 0 }

/-- Signal to buy 1,000,000 shares at 10.00 (projected cost far above
the available 100 of cash). -/
def c5sigBuy : Signal :=
  { symbol := "AAA", action := .buy, price := some 10
    volume := some 1000000, order_type := .market }

/-- Signal to sell 50 shares of a symbol with no position. -/
def c5sigSell : Signal :=
  { symbol := "AAA", action := .sell, price := some 10
    volume := some 50, order_type := .market }

/-- A one-bar data set. -/
def bar0 : Bar :=
  { date := 100, code := "AAA", openPrice := 10, high := 10, low := 10
    close := 10, volume := 1000 }

/-- Account state for a C10 boundary: cash exactly equal to the funds
check's threshold for a 100-share buy at 10.00. -/
def c10acc : Account := { Account.fresh p100k with cash := 10004/10 }

/-- Signal for the boundary buy: 100 shares at 10.00, market. -/
def c10sig : Signal :=
  { symbol := "AAA", action := .buy, price := some 10
    volume := some 100, order_type := .market }

/-- The order that `create_order` builds for the boundary buy. -/
def c10ord : Order :=
  { order_id := ⟨1, "deadbeef"⟩, symbol := "AAA", action := .buy
    price := 10, volume := 100, order_type := .market, timestamp := 100 }

/-- Strategy issuing one market buy of 100 shares at 10.00 per bar. -/
def strat0 : Bar → Account → List Signal := fun _ _ =>
  [{ symbol := "AAA", action := .buy, price := some 10
     volume := some 100, order_type := .market }]

/-- First run: wall clock starts at tick 0, uuid stream at index 0. -/
def c7first : BTState := run p100k strat0 calc0 uuid0 [bar0] 0 0

/-- Second run after `reset()`: the engine state is rebuilt from
scratch, but the wall clock has advanced past the first run and the uuid
stream does not rewind. -/
def c7second : BTState :=
  run p100k strat0 calc0 uuid0 [bar0] c7first.clock c7first.uuidIdx

/-- A two-sample equity history (100 then 110). -/
def c9hist : List EquitySample :=
  [{ timestamp := 0, cash := 100, total_equity := 100, pnl := 0, pnl_percentage := 0 },
   { timestamp := 1, cash := 110, total_equity := 110, pnl := 10, pnl_percentage := 10 }]

/-- A profitable buy trade (bought at 10, equity rose): still classified
as non-winning by the self-comparison. -/
def c9trades : List Trade :=
  [{ trade_id := ⟨0, none⟩, order_id := ⟨1, "deadbeef"⟩, symbol := "AAA"
     action := .buy, price := 10, volume := 100, transaction_cost := 3/10
     timestamp := 0, order_type := .market, slippage := some (1/1000) }]

/-- The metrics the engine computes for `c9hist` / `c9trades`. -/
def c9m : PerfMetrics :=
  { total_return := 10, max_drawdown := 0, win_rate := 0, total_trades := 1
    avg_trade_return := 10, trading_days := 2 }

/-- A single 100,000 equity sample (the single-sample metrics input). -/
def sample100k : EquitySample :=
  { timestamp := 0, cash := 100000, total_equity := 100000, pnl := 0
    pnl_percentage := 0 }

/-! ### Helper lemmas -/

/-- Writing a key with `posSet` makes it readable back. -/
theorem posLookup_posSet_self (ps : List (String × Position)) (sym : String)
    (q : Position) : posLookup (posSet ps sym q) sym = some q := by
  induction ps with
  | nil => simp [posSet, posLookup]
  | cons a ps ih =>
    by_cases ha : a.1 = sym
    · simp [posSet, posLookup, List.find?, ha]
    · by_cases hf : (ps.find? (fun e => e.1 = sym)).isSome
      · simp only [posSet, List.find?, ha, decide_False, hf, if_true,
          List.map_cons, if_false] at ih ⊢
        simpa [posLookup, List.find?, ha] using ih
      · simp only [posSet, List.find?, ha, decide_False, hf, if_false,
          List.cons_append] at ih ⊢
        simpa [posLookup, List.find?, ha] using ih

/-- Deleting a key with `posDelete` makes it unreadable. -/
theorem posLookup_posDelete_self (ps : List (String × Position)) (sym : String) :
    posLookup (posDelete ps sym) sym = none := by
  induction ps with
  | nil => simp [posDelete, posLookup]
  | cons a ps ih =>
    by_cases ha : a.1 = sym
    · simp only [posDelete, List.filter_cons, ha, decide_True] at ih ⊢
      simp only [not_true_eq_false, if_false]
      exact ih
    · simp only [posDelete, List.filter_cons, ha, decide_False] at ih ⊢
      simp only [not_false_eq_true, if_true, posLookup, List.find?, ha,
        decide_False] at ih ⊢
      exact ih

/-- Every trade the matching loop appends is priced at a resting
counter-order of the scanned book, and that resting order crossed the
aggressor's limit. -/
theorem matchLoop_trades_from_book (me : MEState) (crosses : ℚ → ℚ → Bool) :
    ∀ (fuel i : ℕ) (s : LimitLoopSt) (t : Trade),
      t ∈ (matchLoop me crosses fuel i s).trades →
      t ∈ s.trades ∨
        ∃ o ∈ s.book, t.price = o.price ∧
          crosses o.price s.agg.price = true := by
  intro fuel
  induction fuel with
  | zero => intro i s t ht; exact Or.inl ht
  | succ fuel ih =>
    intro i s t ht
    simp only [matchLoop] at ht
    split at ht
    · rename_i h
      split at ht
      · rename_i hcross
        split at ht
        · rcases ih _ _ _ ht with h1 | ⟨o, ho, hp, hc⟩
          · rcases List.mem_append.1 h1 with h2 | h2
            · exact Or.inl h2
            · refine Or.inr ⟨s.book.get ⟨i, h⟩, List.get_mem _ _ _, ?_, hcross.1⟩
              simp only [List.mem_singleton.1 h2]
          · have ho' : o ∈ s.book.set i
                { s.book.get ⟨i, h⟩ with
                    filled_volume := (s.book.get ⟨i, h⟩).filled_volume +
                      min s.remaining ((s.book.get ⟨i, h⟩).volume -
                        (s.book.get ⟨i, h⟩).filled_volume)
                    filled_price := (s.book.get ⟨i, h⟩).price
                    transaction_cost := (s.book.get ⟨i, h⟩).transaction_cost +
                      (s.book.get ⟨i, h⟩).price *
                        min s.remaining ((s.book.get ⟨i, h⟩).volume -
                          (s.book.get ⟨i, h⟩).filled_volume) *
                        me.transaction_cost
                    status := .filled
                    fill_time := some (s.clock + 2) } :=
              (List.eraseIdx_sublist _ i).subset ho
            rcases List.mem_or_eq_of_mem_set ho' with h3 | h3
            · exact Or.inr ⟨o, h3, hp, hc⟩
            · refine Or.inr ⟨s.book.get ⟨i, h⟩, List.get_mem _ _ _, ?_, ?_⟩
              · rw [hp, h3]
              · rw [show o.price = (s.book.get ⟨i, h⟩).price by rw [h3]] at hc
                exact hc
        · rcases ih _ _ _ ht with h1 | ⟨o, ho, hp, hc⟩
          · rcases List.mem_append.1 h1 with h2 | h2
            · exact Or.inl h2
            · refine Or.inr ⟨s.book.get ⟨i, h⟩, List.get_mem _ _ _, ?_, hcross.1⟩
              simp only [List.mem_singleton.1 h2]
          · rcases List.mem_or_eq_of_mem_set ho with h3 | h3
            · exact Or.inr ⟨o, h3, hp, hc⟩
            · refine Or.inr ⟨s.book.get ⟨i, h⟩, List.get_mem _ _ _, ?_, ?_⟩
              · rw [hp, h3]
              · rw [show o.price = (s.book.get ⟨i, h⟩).price by rw [h3]] at hc
                exact hc
      · exact ih _ _ _ ht
    · exact Or.inl ht

/-- The trades returned by a buy `match_limit_order` are exactly the
loop's accumulated trades. -/
theorem match_limit_order_trades_of_buy (me : MEState) (clock : ℕ)
    (order : Order) (ha : order.action = .buy) :
    (match_limit_order me clock order).trades =
      (matchLoop me (fun cp lp => cp ≤ lp) me.sellBook.length 0
        { book := me.sellBook, agg := order, remaining := order.volume
          trades := [], clock := clock }).trades := by
  simp only [match_limit_order, ha]
  split
  · split <;> rfl
  · rfl

/-- The trades returned by a sell `match_limit_order` are exactly the
loop's accumulated trades. -/
theorem match_limit_order_trades_of_sell (me : MEState) (clock : ℕ)
    (order : Order) (ha : order.action = .sell) :
    (match_limit_order me clock order).trades =
      (matchLoop me (fun cp lp => lp ≤ cp) me.buyBook.length 0
        { book := me.buyBook, agg := order, remaining := order.volume
          trades := [], clock := clock }).trades := by
  simp only [match_limit_order, ha]
  split
  · split <;> rfl
  · rfl

/-- Setting an index and then erasing it is just erasing it. -/
theorem eraseIdx_set_self (l : List Order) (i : ℕ) (x : Order) :
    (l.set i x).eraseIdx i = l.eraseIdx i := by
  induction l generalizing i with
  | nil => rfl
  | cons a as ih =>
    cases i with
    | zero => rfl
    | succ i => simp only [List.set_cons_succ, List.eraseIdx_cons_succ, ih]

/-- Every order left in the scanned book descends from an original
entry with the same id. -/
theorem matchLoop_book_ids (me : MEState) (crosses : ℚ → ℚ → Bool) :
    ∀ (fuel i : ℕ) (s : LimitLoopSt),
      ∀ o ∈ (matchLoop me crosses fuel i s).book,
        ∃ o₀ ∈ s.book, o.order_id = o₀.order_id := by
  intro fuel
  induction fuel with
  | zero => intro i s o ho; exact ⟨o, ho, rfl⟩
  | succ fuel ih =>
    intro i s o ho
    simp only [matchLoop] at ho
    split at ho
    · rename_i h
      split at ho
      · split at ho
        · rw [eraseIdx_set_self] at ho
          rcases ih _ _ _ ho with ⟨o₀, ho₀, hid⟩
          exact ⟨o₀, (List.eraseIdx_sublist _ i).subset ho₀, hid⟩
        · rcases ih _ _ _ ho with ⟨o₀, ho₀, hid⟩
          rcases List.mem_or_eq_of_mem_set ho₀ with h3 | h3
          · exact ⟨o₀, h3, hid⟩
          · exact ⟨s.book.get ⟨i, h⟩, List.get_mem _ _ _, by rw [hid, h3]⟩
      · exact ih _ _ _ ho
    · exact ⟨o, ho, rfl⟩

/-- Book invariant through the matching loop: if no resting order is
over-full at entry, then after the scan every retained resting order is
still strictly partially filled, and it descends from an original entry
with the same id, status, price and volume and a no-larger fill. -/
theorem matchLoop_book_inv (me : MEState) (crosses : ℚ → ℚ → Bool) :
    ∀ (fuel i : ℕ) (s : LimitLoopSt),
      (∀ o ∈ s.book, o.filled_volume < o.volume) →
      ∀ o ∈ (matchLoop me crosses fuel i s).book,
        ∃ o₀ ∈ s.book, o.order_id = o₀.order_id ∧ o.status = o₀.status ∧
          o.price = o₀.price ∧ o.volume = o₀.volume ∧
          o₀.filled_volume ≤ o.filled_volume ∧ o.filled_volume < o.volume := by
  intro fuel
  induction fuel with
  | zero =>
    intro i s hinv o ho
    exact ⟨o, ho, rfl, rfl, rfl, rfl, le_refl _, hinv o ho⟩
  | succ fuel ih =>
    intro i s hinv o ho
    simp only [matchLoop] at ho
    split at ho
    · rename_i h
      split at ho
      · rename_i hcross
        split at ho
        · rw [eraseIdx_set_self] at ho
          have hsub := (List.eraseIdx_sublist s.book i).subset
          rcases ih _ _ (fun o' ho' => hinv o' (hsub ho')) o ho with
            ⟨o₀, ho₀, hrest⟩
          exact ⟨o₀, hsub ho₀, hrest⟩
        · rename_i hnotfull
          have hfillpos : 0 <
              min s.remaining ((s.book.get ⟨i, h⟩).volume -
                (s.book.get ⟨i, h⟩).filled_volume) :=
            lt_min hcross.2 (sub_pos.2 (hinv _ (List.get_mem _ _ _)))
          have hinv' : ∀ o' ∈ s.book.set i
              { s.book.get ⟨i, h⟩ with
                  filled_volume := (s.book.get ⟨i, h⟩).filled_volume +
                    min s.remaining ((s.book.get ⟨i, h⟩).volume -
                      (s.book.get ⟨i, h⟩).filled_volume)
                  filled_price := (s.book.get ⟨i, h⟩).price
                  transaction_cost := (s.book.get ⟨i, h⟩).transaction_cost +
                    (s.book.get ⟨i, h⟩).price *
                      min s.remaining ((s.book.get ⟨i, h⟩).volume -
                        (s.book.get ⟨i, h⟩).filled_volume) *
                      me.transaction_cost },
              o'.filled_volume < o'.volume := by
            intro o' ho'
            rcases List.mem_or_eq_of_mem_set ho' with h3 | h3
            · exact hinv o' h3
            · rw [h3]
              exact lt_of_not_le hnotfull
          rcases ih _ _ hinv' o ho with ⟨o₀, ho₀, hid, hst, hpr, hvol, hfl, hlt⟩
          rcases List.mem_or_eq_of_mem_set ho₀ with h3 | h3
          · exact ⟨o₀, h3, hid, hst, hpr, hvol, hfl, hlt⟩
          · refine ⟨s.book.get ⟨i, h⟩, List.get_mem _ _ _, ?_, ?_, ?_, ?_, ?_, hlt⟩
            · rw [hid, h3]
            · rw [hst, h3]
            · rw [hpr, h3]
            · rw [hvol, h3]
            · calc (s.book.get ⟨i, h⟩).filled_volume
                  ≤ (s.book.get ⟨i, h⟩).filled_volume +
                    min s.remaining ((s.book.get ⟨i, h⟩).volume -
                      (s.book.get ⟨i, h⟩).filled_volume) :=
                    le_add_of_nonneg_right (le_of_lt hfillpos)
                _ = o₀.filled_volume := by rw [h3]
                _ ≤ o.filled_volume := hfl
      · exact ih _ _ hinv o ho
    · exact ⟨o, ho, rfl, rfl, rfl, rfl, le_refl _, hinv o ho⟩

/-- The scan-index skip: when the first of two resting sells crosses and
is fully consumed (and removed), the loop's next index steps past the
second resting order, which is returned untouched even though the
aggressor still has remaining volume. -/
theorem matchLoop_skips_after_removal (me : MEState) (agg s₁ s₂ : Order)
    (clock : ℕ) (ha0 : agg.filled_volume = 0) (hf1 : s₁.filled_volume = 0)
    (hc1 : s₁.price ≤ agg.price) (hv1 : 0 < s₁.volume)
    (hlt : s₁.volume < agg.volume) :
    (matchLoop me (fun cp lp => cp ≤ lp) 2 0
      { book := [s₁, s₂], agg := agg, remaining := agg.volume
        trades := [], clock := clock }).book = [s₂] ∧
    (matchLoop me (fun cp lp => cp ≤ lp) 2 0
      { book := [s₁, s₂], agg := agg, remaining := agg.volume
        trades := [], clock := clock }).trades.length = 1 ∧
    (matchLoop me (fun cp lp => cp ≤ lp) 2 0
      { book := [s₁, s₂], agg := agg, remaining := agg.volume
        trades := [], clock := clock }).remaining =
      agg.volume - s₁.volume ∧
    0 < (matchLoop me (fun cp lp => cp ≤ lp) 2 0
      { book := [s₁, s₂], agg := agg, remaining := agg.volume
        trades := [], clock := clock }).remaining ∧
    (matchLoop me (fun cp lp => cp ≤ lp) 2 0
      { book := [s₁, s₂], agg := agg, remaining := agg.volume
        trades := [], clock := clock }).agg.filled_volume = s₁.volume := by
  have h01 : (0 : ℚ) < agg.volume := hv1.trans hlt
  simp only [matchLoop, List.length_cons, List.length_nil]
  norm_num [hc1, h01, hf1, ha0, min_eq_right hlt.le, hlt.le]
  exact hlt

/-- Post-scan status assignment for the aggressor of
`match_limit_order`: fully filled aggressors are marked `filled`,
partially filled ones `partially_filled`. -/
theorem match_limit_order_agg_marking (me : MEState) (clock : ℕ)
    (order : Order) :
    (0 < (match_limit_order me clock order).agg.filled_volume →
      order.volume ≤ (match_limit_order me clock order).agg.filled_volume →
      (match_limit_order me clock order).agg.status = .filled) ∧
    (0 < (match_limit_order me clock order).agg.filled_volume →
      (match_limit_order me clock order).agg.filled_volume < order.volume →
      (match_limit_order me clock order).agg.status = .part_filled) := by
  cases horder : order.action <;>
  · simp only [match_limit_order, horder]
    split
    · split
      · rename_i h1 h2
        exact ⟨fun _ _ => rfl, fun _ hlt => absurd h2 (not_le.2 hlt)⟩
      · rename_i h1 h2
        exact ⟨fun _ hle => absurd hle h2, fun _ _ => rfl⟩
    · rename_i h1
      exact ⟨fun hpos _ => absurd hpos h1, fun hpos _ => absurd hpos h1⟩

/-- `insertByLt` only rearranges membership. -/
theorem mem_insertByLt (lt : Order → Order → Bool) (x o : Order) :
    ∀ l : List Order, o ∈ insertByLt lt x l ↔ o = x ∨ o ∈ l := by
  intro l
  induction l with
  | nil => simp [insertByLt]
  | cons y ys ih =>
    simp only [insertByLt]
    split
    · simp only [List.mem_cons, ih]
      tauto
    · simp only [List.mem_cons]

/-- `sortByLt` permutes, so membership is unchanged. -/
theorem mem_sortByLt (lt : Order → Order → Bool) (o : Order) :
    ∀ l : List Order, o ∈ sortByLt lt l ↔ o ∈ l := by
  intro l
  induction l with
  | nil => simp [sortByLt]
  | cons x xs ih => simp [sortByLt, mem_insertByLt, ih]

/-- `eraseIdx` commutes with `map`. -/
theorem eraseIdx_map {α β : Type} (f : α → β) :
    ∀ (l : List α) (i : ℕ), (l.eraseIdx i).map f = (l.map f).eraseIdx i := by
  intro l
  induction l with
  | nil => intro i; rfl
  | cons a as ih =>
    intro i
    cases i with
    | zero => rfl
    | succ i => simp only [List.eraseIdx_cons_succ, List.map_cons, ih]

/-- `removeById` only removes. -/
theorem mem_removeById {o : Order} (oid : OrderId) :
    ∀ {l : List Order}, o ∈ removeById oid l → o ∈ l := by
  intro l
  induction l with
  | nil => intro h; exact absurd h (List.not_mem_nil o)
  | cons a as ih =>
    simp only [removeById]
    split
    · intro h; exact List.mem_cons_of_mem a h
    · intro h
      rcases List.mem_cons.1 h with h1 | h1
      · exact h1 ▸ List.mem_cons_self a as
      · exact List.mem_cons_of_mem a (ih h1)

/-- Members of `replaceById a l` are members of `l` or the new value. -/
theorem mem_replaceById {o : Order} (a : Order) :
    ∀ {l : List Order}, o ∈ replaceById a l → o ∈ l ∨ o = a := by
  intro l
  induction l with
  | nil => intro h; exact absurd h (List.not_mem_nil o)
  | cons b bs ih =>
    simp only [replaceById]
    split
    · intro h
      rcases List.mem_cons.1 h with h1 | h1
      · exact Or.inr h1
      · exact Or.inl (List.mem_cons_of_mem b h1)
    · intro h
      rcases List.mem_cons.1 h with h1 | h1
      · exact Or.inl (h1 ▸ List.mem_cons_self b bs)
      · rcases ih h1 with h2 | h2
        · exact Or.inl (List.mem_cons_of_mem b h2)
        · exact Or.inr h2

/-- The matching loop never changes the aggressor's id. -/
theorem matchLoop_agg_id (me : MEState) (crosses : ℚ → ℚ → Bool) :
    ∀ (fuel i : ℕ) (s : LimitLoopSt),
      (matchLoop me crosses fuel i s).agg.order_id = s.agg.order_id := by
  intro fuel
  induction fuel with
  | zero => intro i s; rfl
  | succ fuel ih =>
    intro i s
    simp only [matchLoop]
    split
    · split
      · split
        · rw [ih]
        · rw [ih]
      · exact ih _ _
    · rfl

/-- Unpacking a `stripOrder` equality into its twelve components. -/
theorem stripOrder_comps {o₁ o₂ : Order} (h : stripOrder o₁ = stripOrder o₂) :
    o₁.order_id.counter = o₂.order_id.counter ∧ o₁.symbol = o₂.symbol ∧
    o₁.action = o₂.action ∧ o₁.price = o₂.price ∧ o₁.volume = o₂.volume ∧
    o₁.order_type = o₂.order_type ∧ o₁.timestamp = o₂.timestamp ∧
    o₁.status = o₂.status ∧ o₁.filled_volume = o₂.filled_volume ∧
    o₁.filled_price = o₂.filled_price ∧
    o₁.transaction_cost = o₂.transaction_cost ∧ o₁.slippage = o₂.slippage :=
  ⟨congrArg OrderObs.counter h, congrArg OrderObs.symbol h,
    congrArg OrderObs.action h, congrArg OrderObs.price h,
    congrArg OrderObs.volume h, congrArg OrderObs.order_type h,
    congrArg OrderObs.timestamp h, congrArg OrderObs.status h,
    congrArg OrderObs.filled_volume h, congrArg OrderObs.filled_price h,
    congrArg OrderObs.transaction_cost h, congrArg OrderObs.slippage h⟩

/-- Stable insertion respects the stripped view (the comparison reads
only stripped fields). -/
theorem insertByLt_map_strip (lt : Order → Order → Bool)
    (hcong : ∀ a b a' b', stripOrder a = stripOrder a' →
      stripOrder b = stripOrder b' → lt a b = lt a' b') :
    ∀ (l₁ l₂ : List Order) (x₁ x₂ : Order),
      stripOrder x₁ = stripOrder x₂ →
      l₁.map stripOrder = l₂.map stripOrder →
      (insertByLt lt x₁ l₁).map stripOrder =
        (insertByLt lt x₂ l₂).map stripOrder := by
  intro l₁
  induction l₁ with
  | nil =>
    intro l₂ x₁ x₂ hx hl
    cases l₂ with
    | nil => simp [insertByLt, hx]
    | cons b bs => simp at hl
  | cons a as ih =>
    intro l₂ x₁ x₂ hx hl
    cases l₂ with
    | nil => simp at hl
    | cons b bs =>
      simp only [List.map_cons, List.cons.injEq] at hl
      obtain ⟨hab, htl⟩ := hl
      simp only [insertByLt]
      rw [hcong a x₁ b x₂ hab hx]
      by_cases hbx : lt b x₂ = true
      · simp only [if_pos hbx, List.map_cons, hab, ih bs x₁ x₂ hx htl]
      · simp only [if_neg hbx, List.map_cons, hab, hx, htl]

/-- Sorting respects the stripped view. -/
theorem sortByLt_map_strip (lt : Order → Order → Bool)
    (hcong : ∀ a b a' b', stripOrder a = stripOrder a' →
      stripOrder b = stripOrder b' → lt a b = lt a' b') :
    ∀ (l₁ l₂ : List Order),
      l₁.map stripOrder = l₂.map stripOrder →
      (sortByLt lt l₁).map stripOrder = (sortByLt lt l₂).map stripOrder := by
  intro l₁
  induction l₁ with
  | nil =>
    intro l₂ hl
    cases l₂ with
    | nil => rfl
    | cons b bs => simp at hl
  | cons a as ih =>
    intro l₂ hl
    cases l₂ with
    | nil => simp at hl
    | cons b bs =>
      simp only [List.map_cons, List.cons.injEq] at hl
      exact insertByLt_map_strip lt hcong _ _ _ _ hl.1 (ih bs hl.2)

/-- Removing by id respects the stripped view when, in each book, an id
matches iff its deterministic counter component matches. -/
theorem removeById_map_strip :
    ∀ (l₁ l₂ : List Order) (id₁ id₂ : OrderId),
      l₁.map stripOrder = l₂.map stripOrder →
      id₁.counter = id₂.counter →
      (∀ o ∈ l₁, o.order_id = id₁ ↔ o.order_id.counter = id₁.counter) →
      (∀ o ∈ l₂, o.order_id = id₂ ↔ o.order_id.counter = id₂.counter) →
      (removeById id₁ l₁).map stripOrder =
        (removeById id₂ l₂).map stripOrder := by
  intro l₁
  induction l₁ with
  | nil =>
    intro l₂ id₁ id₂ hl hc h₁ h₂
    cases l₂ with
    | nil => rfl
    | cons b bs => simp at hl
  | cons a as ih =>
    intro l₂ id₁ id₂ hl hc h₁ h₂
    cases l₂ with
    | nil => simp at hl
    | cons b bs =>
      simp only [List.map_cons, List.cons.injEq] at hl
      obtain ⟨hab, htl⟩ := hl
      have hcnt : a.order_id.counter = b.order_id.counter :=
        (stripOrder_comps hab).1
      simp only [removeById]
      by_cases haid : a.order_id = id₁
      · have hbid : b.order_id = id₂ :=
          (h₂ b (List.mem_cons_self b bs)).2
            (by rw [← hcnt, (h₁ a (List.mem_cons_self a as)).1 haid, hc])
        rw [if_pos haid, if_pos hbid]
        exact htl
      · have hbid : ¬ b.order_id = id₂ := by
          intro hbid
          exact haid ((h₁ a (List.mem_cons_self a as)).2
            (by rw [hcnt, (h₂ b (List.mem_cons_self b bs)).1 hbid, hc]))
        rw [if_neg haid, if_neg hbid]
        simp only [List.map_cons, List.cons.injEq]
        exact ⟨hab, ih bs id₁ id₂ htl hc
          (fun o ho => h₁ o (List.mem_cons_of_mem a ho))
          (fun o ho => h₂ o (List.mem_cons_of_mem b ho))⟩

/-- Replacing by id respects the stripped view under the same
id-vs-counter discipline. -/
theorem replaceById_map_strip :
    ∀ (l₁ l₂ : List Order) (a₁ a₂ : Order),
      l₁.map stripOrder = l₂.map stripOrder →
      stripOrder a₁ = stripOrder a₂ →
      (∀ o ∈ l₁, o.order_id = a₁.order_id ↔
        o.order_id.counter = a₁.order_id.counter) →
      (∀ o ∈ l₂, o.order_id = a₂.order_id ↔
        o.order_id.counter = a₂.order_id.counter) →
      (replaceById a₁ l₁).map stripOrder =
        (replaceById a₂ l₂).map stripOrder := by
  intro l₁
  induction l₁ with
  | nil =>
    intro l₂ a₁ a₂ hl ha h₁ h₂
    cases l₂ with
    | nil => rfl
    | cons b bs => simp at hl
  | cons x xs ih =>
    intro l₂ a₁ a₂ hl ha h₁ h₂
    cases l₂ with
    | nil => simp at hl
    | cons y ys =>
      simp only [List.map_cons, List.cons.injEq] at hl
      obtain ⟨hxy, htl⟩ := hl
      have hcnt : x.order_id.counter = y.order_id.counter :=
        (stripOrder_comps hxy).1
      have hacnt : a₁.order_id.counter = a₂.order_id.counter :=
        (stripOrder_comps ha).1
      simp only [replaceById]
      by_cases hxid : x.order_id = a₁.order_id
      · have hyid : y.order_id = a₂.order_id :=
          (h₂ y (List.mem_cons_self y ys)).2
            (by rw [← hcnt, (h₁ x (List.mem_cons_self x xs)).1 hxid, hacnt])
        rw [if_pos hxid, if_pos hyid]
        simp only [List.map_cons, ha, htl]
      · have hyid : ¬ y.order_id = a₂.order_id := by
          intro hyid
          exact hxid ((h₁ x (List.mem_cons_self x xs)).2
            (by rw [hcnt, (h₂ y (List.mem_cons_self y ys)).1 hyid, hacnt]))
        rw [if_neg hxid, if_neg hyid]
        simp only [List.map_cons, List.cons.injEq]
        exact ⟨hxy, ih ys a₁ a₂ htl ha
          (fun o ho => h₁ o (List.mem_cons_of_mem x ho))
          (fun o ho => h₂ o (List.mem_cons_of_mem y ho))⟩

/-- Pointwise access under a stripped-books equality. -/
theorem map_strip_get :
    ∀ (l₁ l₂ : List Order), l₁.map stripOrder = l₂.map stripOrder →
      ∀ (i : ℕ) (h₁ : i < l₁.length) (h₂ : i < l₂.length),
        stripOrder (l₁.get ⟨i, h₁⟩) = stripOrder (l₂.get ⟨i, h₂⟩) := by
  intro l₁
  induction l₁ with
  | nil => intro l₂ h i h₁ h₂; exact absurd h₁ (by simp)
  | cons a as ih =>
    intro l₂ h i h₁ h₂
    cases l₂ with
    | nil => simp at h
    | cons b bs =>
      simp only [List.map_cons, List.cons.injEq] at h
      cases i with
      | zero => exact h.1
      | succ i =>
        exact ih bs h.2 i (Nat.lt_of_succ_lt_succ h₁) (Nat.lt_of_succ_lt_succ h₂)

/-- The matching loop is a function of the stripped state: two loop
states that agree on stripped books, stripped aggressor, remaining
volume and trade cores (under equal cost rates) step to states that
agree likewise — the wall clock and the random id suffixes influence
only ids and fill times. -/
theorem matchLoop_strip_cong (me₁ me₂ : MEState) (crosses : ℚ → ℚ → Bool)
    (hrate : me₁.transaction_cost = me₂.transaction_cost) :
    ∀ (fuel i : ℕ) (s₁ s₂ : LimitLoopSt),
      s₁.book.map stripOrder = s₂.book.map stripOrder →
      stripOrder s₁.agg = stripOrder s₂.agg →
      s₁.remaining = s₂.remaining →
      s₁.trades.map tradeCore = s₂.trades.map tradeCore →
      (matchLoop me₁ crosses fuel i s₁).book.map stripOrder =
        (matchLoop me₂ crosses fuel i s₂).book.map stripOrder ∧
      stripOrder (matchLoop me₁ crosses fuel i s₁).agg =
        stripOrder (matchLoop me₂ crosses fuel i s₂).agg ∧
      (matchLoop me₁ crosses fuel i s₁).remaining =
        (matchLoop me₂ crosses fuel i s₂).remaining ∧
      (matchLoop me₁ crosses fuel i s₁).trades.map tradeCore =
        (matchLoop me₂ crosses fuel i s₂).trades.map tradeCore := by
  intro fuel
  induction fuel with
  | zero => intro i s₁ s₂ hb ha hr ht; exact ⟨hb, ha, hr, ht⟩
  | succ fuel ih =>
    intro i s₁ s₂ hb ha hr ht
    have hlen : s₁.book.length = s₂.book.length := by
      rw [← List.length_map s₁.book stripOrder, hb, List.length_map]
    by_cases h : i < s₁.book.length
    · have h₂ : i < s₂.book.length := hlen ▸ h
      have hget := map_strip_get s₁.book s₂.book hb i h h₂
      obtain ⟨gcnt, gsym, gact, gpr, gvol, gtyp, gts, gst, gfv, gfp, gtc, gsl⟩ :=
        stripOrder_comps hget
      obtain ⟨acnt, asym, aact, apr, avol, atyp, ats, ast, afv, afp, atc, asl⟩ :=
        stripOrder_comps ha
      have hlens : s₁.trades.length = s₂.trades.length := by
        rw [← List.length_map s₁.trades tradeCore, ht, List.length_map]
      rw [matchLoop, matchLoop, dif_pos h, dif_pos h₂]
      have hcond : (crosses (s₁.book.get ⟨i, h⟩).price s₁.agg.price = true ∧
          0 < s₁.remaining) ↔
          (crosses (s₂.book.get ⟨i, h₂⟩).price s₂.agg.price = true ∧
          0 < s₂.remaining) := by
        rw [gpr, apr, hr]
      by_cases hc : crosses (s₂.book.get ⟨i, h₂⟩).price s₂.agg.price = true ∧
          0 < s₂.remaining
      · rw [if_pos (hcond.2 hc), if_pos hc]
        have hfill : min s₁.remaining ((s₁.book.get ⟨i, h⟩).volume -
            (s₁.book.get ⟨i, h⟩).filled_volume) =
            min s₂.remaining ((s₂.book.get ⟨i, h₂⟩).volume -
            (s₂.book.get ⟨i, h₂⟩).filled_volume) := by
          rw [hr, gvol, gfv]
        have hfullc : ((s₁.book.get ⟨i, h⟩).volume ≤
            (s₁.book.get ⟨i, h⟩).filled_volume +
              min s₁.remaining ((s₁.book.get ⟨i, h⟩).volume -
                (s₁.book.get ⟨i, h⟩).filled_volume)) ↔
            ((s₂.book.get ⟨i, h₂⟩).volume ≤
            (s₂.book.get ⟨i, h₂⟩).filled_volume +
              min s₂.remaining ((s₂.book.get ⟨i, h₂⟩).volume -
                (s₂.book.get ⟨i, h₂⟩).filled_volume)) := by
          rw [hfill, gvol, gfv]
        have hagg' : stripOrder
            { s₁.agg with
                filled_volume := s₁.agg.filled_volume +
                  min s₁.remaining ((s₁.book.get ⟨i, h⟩).volume -
                    (s₁.book.get ⟨i, h⟩).filled_volume)
                filled_price := (s₁.book.get ⟨i, h⟩).price
                transaction_cost := s₁.agg.transaction_cost +
                  (s₁.book.get ⟨i, h⟩).price *
                    (min s₁.remaining ((s₁.book.get ⟨i, h⟩).volume -
                      (s₁.book.get ⟨i, h⟩).filled_volume)) *
                    me₁.transaction_cost } =
            stripOrder
            { s₂.agg with
                filled_volume := s₂.agg.filled_volume +
                  min s₂.remaining ((s₂.book.get ⟨i, h₂⟩).volume -
                    (s₂.book.get ⟨i, h₂⟩).filled_volume)
                filled_price := (s₂.book.get ⟨i, h₂⟩).price
                transaction_cost := s₂.agg.transaction_cost +
                  (s₂.book.get ⟨i, h₂⟩).price *
                    (min s₂.remaining ((s₂.book.get ⟨i, h₂⟩).volume -
                      (s₂.book.get ⟨i, h₂⟩).filled_volume)) *
                    me₂.transaction_cost } := by
          simp only [stripOrder, OrderObs.mk.injEq]
          exact ⟨acnt, asym, aact, apr, avol, atyp, ats, ast,
            by rw [hfill, afv], gpr, by rw [hfill, atc, gpr, hrate], asl⟩
        have hctr' : stripOrder
            { s₁.book.get ⟨i, h⟩ with
                filled_volume := (s₁.book.get ⟨i, h⟩).filled_volume +
                  min s₁.remaining ((s₁.book.get ⟨i, h⟩).volume -
                    (s₁.book.get ⟨i, h⟩).filled_volume)
                filled_price := (s₁.book.get ⟨i, h⟩).price
                transaction_cost := (s₁.book.get ⟨i, h⟩).transaction_cost +
                  (s₁.book.get ⟨i, h⟩).price *
                    (min s₁.remaining ((s₁.book.get ⟨i, h⟩).volume -
                      (s₁.book.get ⟨i, h⟩).filled_volume)) *
                    me₁.transaction_cost } =
            stripOrder
            { s₂.book.get ⟨i, h₂⟩ with
                filled_volume := (s₂.book.get ⟨i, h₂⟩).filled_volume +
                  min s₂.remaining ((s₂.book.get ⟨i, h₂⟩).volume -
                    (s₂.book.get ⟨i, h₂⟩).filled_volume)
                filled_price := (s₂.book.get ⟨i, h₂⟩).price
                transaction_cost := (s₂.book.get ⟨i, h₂⟩).transaction_cost +
                  (s₂.book.get ⟨i, h₂⟩).price *
                    (min s₂.remaining ((s₂.book.get ⟨i, h₂⟩).volume -
                      (s₂.book.get ⟨i, h₂⟩).filled_volume)) *
                    me₂.transaction_cost } := by
          simp only [stripOrder, OrderObs.mk.injEq]
          exact ⟨gcnt, gsym, gact, gpr, gvol, gtyp, gts, gst,
            by rw [hfill, gfv], gpr, by rw [hfill, gtc, gpr, hrate], gsl⟩
        have htr : tradeCore
            { trade_id := ⟨s₁.clock, some s₁.trades.length⟩
              order_id := s₁.agg.order_id
              symbol := s₁.agg.symbol
              action := s₁.agg.action
              price := (s₁.book.get ⟨i, h⟩).price
              volume := min s₁.remaining ((s₁.book.get ⟨i, h⟩).volume -
                (s₁.book.get ⟨i, h⟩).filled_volume)
              transaction_cost := (s₁.book.get ⟨i, h⟩).price *
                (min s₁.remaining ((s₁.book.get ⟨i, h⟩).volume -
                  (s₁.book.get ⟨i, h⟩).filled_volume)) * me₁.transaction_cost
              timestamp := s₁.clock + 1
              order_type := s₁.agg.order_type
              slippage := none } = tradeCore
            { trade_id := ⟨s₂.clock, some s₂.trades.length⟩
              order_id := s₂.agg.order_id
              symbol := s₂.agg.symbol
              action := s₂.agg.action
              price := (s₂.book.get ⟨i, h₂⟩).price
              volume := min s₂.remaining ((s₂.book.get ⟨i, h₂⟩).volume -
                (s₂.book.get ⟨i, h₂⟩).filled_volume)
              transaction_cost := (s₂.book.get ⟨i, h₂⟩).price *
                (min s₂.remaining ((s₂.book.get ⟨i, h₂⟩).volume -
                  (s₂.book.get ⟨i, h₂⟩).filled_volume)) * me₂.transaction_cost
              timestamp := s₂.clock + 1
              order_type := s₂.agg.order_type
              slippage := none } := by
          simp only [tradeCore, TradeCore.mk.injEq]
          exact ⟨asym, aact, gpr, hfill, by rw [hfill, gpr, hrate], atyp, trivial⟩
        by_cases hfull : (s₂.book.get ⟨i, h₂⟩).volume ≤
            (s₂.book.get ⟨i, h₂⟩).filled_volume +
              min s₂.remaining ((s₂.book.get ⟨i, h₂⟩).volume -
                (s₂.book.get ⟨i, h₂⟩).filled_volume)
        · rw [if_pos (hfullc.2 hfull), if_pos hfull]
          refine ih _ _ _ ?_ hagg' (by rw [hfill, hr]) ?_
          · rw [eraseIdx_set_self, eraseIdx_set_self, eraseIdx_map,
              eraseIdx_map, hb]
          · simp only [List.map_append, List.map_cons, List.map_nil, ht, htr]
        · rw [if_neg (fun hx => hfull (hfullc.1 hx)), if_neg hfull]
          refine ih _ _ _ ?_ hagg' (by rw [hfill, hr]) ?_
          · rw [List.map_set, List.map_set, hb, hctr']
          · simp only [List.map_append, List.map_cons, List.map_nil, ht, htr]
      · rw [if_neg (fun hx => hc (hcond.1 hx)), if_neg hc]
        exact ih _ _ _ hb ha hr ht
    · have h₂ : ¬ i < s₂.book.length := hlen ▸ h
      rw [matchLoop, matchLoop, dif_neg h, dif_neg h₂]
      exact ⟨hb, ha, hr, ht⟩

/-- Variant of `matchLoop_strip_cong` taking the two (equal) fuels as
they appear on each side. -/
theorem matchLoop_strip_cong2 (me₁ me₂ : MEState) (crosses : ℚ → ℚ → Bool)
    (hrate : me₁.transaction_cost = me₂.transaction_cost)
    (fuel₁ fuel₂ i : ℕ) (s₁ s₂ : LimitLoopSt) (hfuel : fuel₁ = fuel₂)
    (hb : s₁.book.map stripOrder = s₂.book.map stripOrder)
    (ha : stripOrder s₁.agg = stripOrder s₂.agg)
    (hr : s₁.remaining = s₂.remaining)
    (ht : s₁.trades.map tradeCore = s₂.trades.map tradeCore) :
    (matchLoop me₁ crosses fuel₁ i s₁).book.map stripOrder =
      (matchLoop me₂ crosses fuel₂ i s₂).book.map stripOrder ∧
    stripOrder (matchLoop me₁ crosses fuel₁ i s₁).agg =
      stripOrder (matchLoop me₂ crosses fuel₂ i s₂).agg ∧
    (matchLoop me₁ crosses fuel₁ i s₁).remaining =
      (matchLoop me₂ crosses fuel₂ i s₂).remaining ∧
    (matchLoop me₁ crosses fuel₁ i s₁).trades.map tradeCore =
      (matchLoop me₂ crosses fuel₂ i s₂).trades.map tradeCore := by
  subst hfuel
  exact matchLoop_strip_cong me₁ me₂ crosses hrate fuel₁ i s₁ s₂ hb ha hr ht

/-- In a freshly sorted book that holds exactly one order carrying the
new counter (the aggressor), an id matches the aggressor's id iff its
counter component does. -/
theorem sorted_book_iff (book : List Order) (x : Order)
    (lt : Order → Order → Bool)
    (hf : ∀ o ∈ book, o.order_id.counter < x.order_id.counter) :
    ∀ o ∈ sortByLt lt (book ++ [x]),
      (o.order_id = x.order_id ↔
        o.order_id.counter = x.order_id.counter) := by
  intro o ho
  rw [mem_sortByLt] at ho
  rcases List.mem_append.1 ho with h1 | h1
  · constructor
    · intro h; rw [h]
    · intro h; exact absurd h (Nat.ne_of_lt (hf o h1))
  · rw [List.mem_singleton.1 h1]
    exact ⟨fun _ => rfl, fun _ => rfl⟩

/-- Stripping ignores a status/fill-time overwrite done on both sides. -/
theorem strip_set_status {o₁ o₂ : Order} (h : stripOrder o₁ = stripOrder o₂)
    (st : OrderStatus) (ft₁ ft₂ : Option ℕ) :
    stripOrder { o₁ with status := st, fill_time := ft₁ } =
      stripOrder { o₂ with status := st, fill_time := ft₂ } := by
  obtain ⟨c1, c2, c3, c4, c5, c6, c7, _, c9, c10, c11, c12⟩ :=
    stripOrder_comps h
  simp only [stripOrder, OrderObs.mk.injEq]
  exact ⟨c1, c2, c3, c4, c5, c6, c7, trivial, c9, c10, c11, c12⟩

/-- Counters of orders left in the books by `match_limit_order` are
bounded by any bound for the incoming books and aggressor. -/
theorem match_limit_order_books_counter (me : MEState) (clk : ℕ)
    (o : Order) (n : ℕ)
    (hbb : ∀ x ∈ me.buyBook, x.order_id.counter ≤ n)
    (hsb : ∀ x ∈ me.sellBook, x.order_id.counter ≤ n)
    (ho : o.order_id.counter ≤ n) :
    (∀ x ∈ (match_limit_order me clk o).buyBook,
      x.order_id.counter ≤ n) ∧
    (∀ x ∈ (match_limit_order me clk o).sellBook,
      x.order_id.counter ≤ n) := by
  have hloopB : ∀ (crosses : ℚ → ℚ → Bool) (fuel i : ℕ)
      (s : LimitLoopSt), (∀ x ∈ s.book, x.order_id.counter ≤ n) →
      ∀ x ∈ (matchLoop me crosses fuel i s).book, x.order_id.counter ≤ n := by
    intro crosses fuel i s hs x hx
    rcases matchLoop_book_ids me crosses fuel i s x hx with ⟨x₀, hx₀, hid⟩
    rw [hid]
    exact hs x₀ hx₀
  cases hact : o.action
  · -- buy: scans the sell book, aggressor sits in the buy book
    constructor
    · intro x hx
      simp only [match_limit_order, hact] at hx
      split at hx
      · split at hx
        · rcases mem_removeById _ hx with h1
          exact hbb x h1
        · rcases mem_replaceById _ hx with h1 | h1
          · exact hbb x h1
          · rw [h1]
            simp only [matchLoop_agg_id]
            exact ho
      · exact hbb x hx
    · intro x hx
      simp only [match_limit_order, hact] at hx
      have hb' : ∀ y ∈ me.sellBook, y.order_id.counter ≤ n := hsb
      split at hx
      · split at hx
        · exact hloopB _ _ _ _ hb' x hx
        · exact hloopB _ _ _ _ hb' x hx
      · exact hloopB _ _ _ _ hb' x hx
  · -- sell: scans the buy book, aggressor sits in the sell book
    constructor
    · intro x hx
      simp only [match_limit_order, hact] at hx
      have hb' : ∀ y ∈ me.buyBook, y.order_id.counter ≤ n := hbb
      split at hx
      · split at hx
        · exact hloopB _ _ _ _ hb' x hx
        · exact hloopB _ _ _ _ hb' x hx
      · exact hloopB _ _ _ _ hb' x hx
    · intro x hx
      simp only [match_limit_order, hact] at hx
      split at hx
      · split at hx
        · rcases mem_removeById _ hx with h1
          exact hsb x h1
        · rcases mem_replaceById _ hx with h1 | h1
          · exact hsb x h1
          · rw [h1]
            simp only [matchLoop_agg_id]
            exact ho
      · exact hsb x hx

/-- Counters of orders left in the books by `add_order` are bounded by
any bound for the incoming books and order. -/
theorem add_order_counter_le (me : MEState) (clk : ℕ) (o : Order) (n : ℕ)
    (hbb : ∀ x ∈ me.buyBook, x.order_id.counter ≤ n)
    (hsb : ∀ x ∈ me.sellBook, x.order_id.counter ≤ n)
    (ho : o.order_id.counter ≤ n) :
    (∀ x ∈ (add_order me clk o).1.buyBook, x.order_id.counter ≤ n) ∧
    (∀ x ∈ (add_order me clk o).1.sellBook, x.order_id.counter ≤ n) := by
  cases hot : o.order_type
  · exact ⟨fun x hx => hbb x (by simpa [add_order, hot, match_market_order]
      using hx), fun x hx => hsb x (by
        simpa [add_order, hot, match_market_order] using hx)⟩
  · have hsorted : ∀ (lt : Order → Order → Bool) (l : List Order),
        (∀ x ∈ l, x.order_id.counter ≤ n) →
        ∀ x ∈ sortByLt lt l, x.order_id.counter ≤ n := by
      intro lt l hl x hx
      exact hl x ((mem_sortByLt lt x l).1 hx)
    cases hact : o.action
    · have h := match_limit_order_books_counter
        (sort_order_book { me with buyBook := me.buyBook ++ [o] }) clk o n
        (hsorted _ _ (by
          intro x hx
          rcases List.mem_append.1 hx with h1 | h1
          · exact hbb x h1
          · rw [List.mem_singleton.1 h1]; exact ho))
        (hsorted _ _ hsb) ho
      constructor
      · intro x hx
        exact h.1 x (by simpa [add_order, hot, hact, sort_order_book] using hx)
      · intro x hx
        exact h.2 x (by simpa [add_order, hot, hact, sort_order_book] using hx)
    · have h := match_limit_order_books_counter
        (sort_order_book { me with sellBook := me.sellBook ++ [o] }) clk o n
        (hsorted _ _ hbb)
        (hsorted _ _ (by
          intro x hx
          rcases List.mem_append.1 hx with h1 | h1
          · exact hsb x h1
          · rw [List.mem_singleton.1 h1]; exact ho)) ho
      constructor
      · intro x hx
        exact h.1 x (by simpa [add_order, hot, hact, sort_order_book] using hx)
      · intro x hx
        exact h.2 x (by simpa [add_order, hot, hact, sort_order_book] using hx)
  · exact ⟨fun x hx => hbb x (by simpa [add_order, hot] using hx),
      fun x hx => hsb x (by simpa [add_order, hot] using hx)⟩

/-- Stripping ignores a status overwrite done on both sides. -/
theorem strip_set_status_only {o₁ o₂ : Order}
    (h : stripOrder o₁ = stripOrder o₂) (st : OrderStatus) :
    stripOrder { o₁ with status := st } =
      stripOrder { o₂ with status := st } := by
  obtain ⟨c1, c2, c3, c4, c5, c6, c7, _, c9, c10, c11, c12⟩ :=
    stripOrder_comps h
  simp only [stripOrder, OrderObs.mk.injEq]
  exact ⟨c1, c2, c3, c4, c5, c6, c7, trivial, c9, c10, c11, c12⟩

/-- In a book whose counters are all below an id's counter, the id can
only match by matching counters (vacuously: neither matches). -/
theorem fresh_book_iff (l : List Order) (oid : OrderId)
    (hf : ∀ o ∈ l, o.order_id.counter < oid.counter) :
    ∀ o ∈ l, (o.order_id = oid ↔ o.order_id.counter = oid.counter) :=
  fun o ho => ⟨fun h => by rw [h],
    fun h => absurd h (Nat.ne_of_lt (hf o ho))⟩

/-- `match_limit_order` is a function of the stripped engine state:
with strip-equal books (under the id-vs-counter discipline for the
aggressor's id) and strip-equal aggressors, the resulting books are
strip-equal and the produced trades agree on their cores. -/
theorem match_limit_order_strip (me₁ me₂ : MEState) (clk₁ clk₂ : ℕ)
    (o₁ o₂ : Order)
    (htc : me₁.transaction_cost = me₂.transaction_cost)
    (hbb : me₁.buyBook.map stripOrder = me₂.buyBook.map stripOrder)
    (hsb : me₁.sellBook.map stripOrder = me₂.sellBook.map stripOrder)
    (ho : stripOrder o₁ = stripOrder o₂)
    (hiffB₁ : ∀ x ∈ me₁.buyBook,
      (x.order_id = o₁.order_id ↔
        x.order_id.counter = o₁.order_id.counter))
    (hiffB₂ : ∀ x ∈ me₂.buyBook,
      (x.order_id = o₂.order_id ↔
        x.order_id.counter = o₂.order_id.counter))
    (hiffS₁ : ∀ x ∈ me₁.sellBook,
      (x.order_id = o₁.order_id ↔
        x.order_id.counter = o₁.order_id.counter))
    (hiffS₂ : ∀ x ∈ me₂.sellBook,
      (x.order_id = o₂.order_id ↔
        x.order_id.counter = o₂.order_id.counter)) :
    ((match_limit_order me₁ clk₁ o₁).buyBook.map stripOrder =
      (match_limit_order me₂ clk₂ o₂).buyBook.map stripOrder) ∧
    ((match_limit_order me₁ clk₁ o₁).sellBook.map stripOrder =
      (match_limit_order me₂ clk₂ o₂).sellBook.map stripOrder) ∧
    ((match_limit_order me₁ clk₁ o₁).trades.map tradeCore =
      (match_limit_order me₂ clk₂ o₂).trades.map tradeCore) := by
  obtain ⟨ocnt, osym, oact, opr, ovol, otyp, ots, ost, ofv, ofp, otc, osl⟩ :=
    stripOrder_comps ho
  cases hact : o₁.action
  · -- buy aggressor: scan the sell book
    have hact₂ : o₂.action = .buy := by rw [← oact, hact]
    have key := matchLoop_strip_cong2 me₁ me₂ (fun cp lp => cp ≤ lp) htc
      me₁.sellBook.length me₂.sellBook.length 0
      { book := me₁.sellBook, agg := o₁, remaining := o₁.volume
        trades := [], clock := clk₁ }
      { book := me₂.sellBook, agg := o₂, remaining := o₂.volume
        trades := [], clock := clk₂ }
      (by rw [← List.length_map me₁.sellBook stripOrder, hsb, List.length_map])
      hsb ho ovol rfl
    obtain ⟨kbook, kagg, krem, ktr⟩ := key
    have kfv : (matchLoop me₁ (fun cp lp => cp ≤ lp) me₁.sellBook.length 0
        { book := me₁.sellBook, agg := o₁, remaining := o₁.volume
          trades := [], clock := clk₁ }).agg.filled_volume =
        (matchLoop me₂ (fun cp lp => cp ≤ lp) me₂.sellBook.length 0
        { book := me₂.sellBook, agg := o₂, remaining := o₂.volume
          trades := [], clock := clk₂ }).agg.filled_volume :=
      (stripOrder_comps kagg).2.2.2.2.2.2.2.2.1
    have kid₁ : (matchLoop me₁ (fun cp lp => cp ≤ lp) me₁.sellBook.length 0
        { book := me₁.sellBook, agg := o₁, remaining := o₁.volume
          trades := [], clock := clk₁ }).agg.order_id = o₁.order_id :=
      matchLoop_agg_id me₁ _ _ _ _
    have kid₂ : (matchLoop me₂ (fun cp lp => cp ≤ lp) me₂.sellBook.length 0
        { book := me₂.sellBook, agg := o₂, remaining := o₂.volume
          trades := [], clock := clk₂ }).agg.order_id = o₂.order_id :=
      matchLoop_agg_id me₂ _ _ _ _
    simp only [match_limit_order, hact, hact₂]
    by_cases hpos : 0 <
        (matchLoop me₂ (fun cp lp => cp ≤ lp) me₂.sellBook.length 0
          { book := me₂.sellBook, agg := o₂, remaining := o₂.volume
            trades := [], clock := clk₂ }).agg.filled_volume
    · rw [if_pos (kfv ▸ hpos), if_pos hpos]
      by_cases hfull : o₂.volume ≤
          (matchLoop me₂ (fun cp lp => cp ≤ lp) me₂.sellBook.length 0
            { book := me₂.sellBook, agg := o₂, remaining := o₂.volume
              trades := [], clock := clk₂ }).agg.filled_volume
      · rw [if_pos (by rw [kfv, ovol]; exact hfull), if_pos hfull]
        refine ⟨?_, kbook, ktr⟩
        rw [show ({ (matchLoop me₁ (fun cp lp => cp ≤ lp)
            me₁.sellBook.length 0
            { book := me₁.sellBook, agg := o₁, remaining := o₁.volume
              trades := [], clock := clk₁ }).agg with
            status := OrderStatus.filled,
            fill_time := some (matchLoop me₁ (fun cp lp => cp ≤ lp)
              me₁.sellBook.length 0
              { book := me₁.sellBook, agg := o₁, remaining := o₁.volume
                trades := [], clock := clk₁ }).clock } : Order).order_id =
          o₁.order_id from kid₁]
        rw [show ({ (matchLoop me₂ (fun cp lp => cp ≤ lp)
            me₂.sellBook.length 0
            { book := me₂.sellBook, agg := o₂, remaining := o₂.volume
              trades := [], clock := clk₂ }).agg with
            status := OrderStatus.filled,
            fill_time := some (matchLoop me₂ (fun cp lp => cp ≤ lp)
              me₂.sellBook.length 0
              { book := me₂.sellBook, agg := o₂, remaining := o₂.volume
                trades := [], clock := clk₂ }).clock } : Order).order_id =
          o₂.order_id from kid₂]
        exact removeById_map_strip me₁.buyBook me₂.buyBook o₁.order_id
          o₂.order_id hbb ocnt hiffB₁ hiffB₂
      · rw [if_neg (by rw [kfv, ovol]; exact hfull), if_neg hfull]
        refine ⟨?_, kbook, ktr⟩
        refine replaceById_map_strip me₁.buyBook me₂.buyBook _ _ hbb
          (strip_set_status_only kagg .part_filled) ?_ ?_
        · intro x hx
          rw [show ({ (matchLoop me₁ (fun cp lp => cp ≤ lp)
              me₁.sellBook.length 0
              { book := me₁.sellBook, agg := o₁, remaining := o₁.volume
                trades := [], clock := clk₁ }).agg with
              status := OrderStatus.part_filled } : Order).order_id =
            o₁.order_id from kid₁]
          exact hiffB₁ x hx
        · intro x hx
          rw [show ({ (matchLoop me₂ (fun cp lp => cp ≤ lp)
              me₂.sellBook.length 0
              { book := me₂.sellBook, agg := o₂, remaining := o₂.volume
                trades := [], clock := clk₂ }).agg with
              status := OrderStatus.part_filled } : Order).order_id =
            o₂.order_id from kid₂]
          exact hiffB₂ x hx
    · rw [if_neg (by rw [kfv]; exact hpos), if_neg hpos]
      exact ⟨hbb, kbook, ktr⟩
  · -- sell aggressor: scan the buy book
    have hact₂ : o₂.action = .sell := by rw [← oact, hact]
    have key := matchLoop_strip_cong2 me₁ me₂ (fun cp lp => lp ≤ cp) htc
      me₁.buyBook.length me₂.buyBook.length 0
      { book := me₁.buyBook, agg := o₁, remaining := o₁.volume
        trades := [], clock := clk₁ }
      { book := me₂.buyBook, agg := o₂, remaining := o₂.volume
        trades := [], clock := clk₂ }
      (by rw [← List.length_map me₁.buyBook stripOrder, hbb, List.length_map])
      hbb ho ovol rfl
    obtain ⟨kbook, kagg, krem, ktr⟩ := key
    have kfv : (matchLoop me₁ (fun cp lp => lp ≤ cp) me₁.buyBook.length 0
        { book := me₁.buyBook, agg := o₁, remaining := o₁.volume
          trades := [], clock := clk₁ }).agg.filled_volume =
        (matchLoop me₂ (fun cp lp => lp ≤ cp) me₂.buyBook.length 0
        { book := me₂.buyBook, agg := o₂, remaining := o₂.volume
          trades := [], clock := clk₂ }).agg.filled_volume :=
      (stripOrder_comps kagg).2.2.2.2.2.2.2.2.1
    have kid₁ : (matchLoop me₁ (fun cp lp => lp ≤ cp) me₁.buyBook.length 0
        { book := me₁.buyBook, agg := o₁, remaining := o₁.volume
          trades := [], clock := clk₁ }).agg.order_id = o₁.order_id :=
      matchLoop_agg_id me₁ _ _ _ _
    have kid₂ : (matchLoop me₂ (fun cp lp => lp ≤ cp) me₂.buyBook.length 0
        { book := me₂.buyBook, agg := o₂, remaining := o₂.volume
          trades := [], clock := clk₂ }).agg.order_id = o₂.order_id :=
      matchLoop_agg_id me₂ _ _ _ _
    simp only [match_limit_order, hact, hact₂]
    by_cases hpos : 0 <
        (matchLoop me₂ (fun cp lp => lp ≤ cp) me₂.buyBook.length 0
          { book := me₂.buyBook, agg := o₂, remaining := o₂.volume
            trades := [], clock := clk₂ }).agg.filled_volume
    · rw [if_pos (kfv ▸ hpos), if_pos hpos]
      by_cases hfull : o₂.volume ≤
          (matchLoop me₂ (fun cp lp => lp ≤ cp) me₂.buyBook.length 0
            { book := me₂.buyBook, agg := o₂, remaining := o₂.volume
              trades := [], clock := clk₂ }).agg.filled_volume
      · rw [if_pos (by rw [kfv, ovol]; exact hfull), if_pos hfull]
        refine ⟨kbook, ?_, ktr⟩
        rw [show ({ (matchLoop me₁ (fun cp lp => lp ≤ cp)
            me₁.buyBook.length 0
            { book := me₁.buyBook, agg := o₁, remaining := o₁.volume
              trades := [], clock := clk₁ }).agg with
            status := OrderStatus.filled,
            fill_time := some (matchLoop me₁ (fun cp lp => lp ≤ cp)
              me₁.buyBook.length 0
              { book := me₁.buyBook, agg := o₁, remaining := o₁.volume
                trades := [], clock := clk₁ }).clock } : Order).order_id =
          o₁.order_id from kid₁]
        rw [show ({ (matchLoop me₂ (fun cp lp => lp ≤ cp)
            me₂.buyBook.length 0
            { book := me₂.buyBook, agg := o₂, remaining := o₂.volume
              trades := [], clock := clk₂ }).agg with
            status := OrderStatus.filled,
            fill_time := some (matchLoop me₂ (fun cp lp => lp ≤ cp)
              me₂.buyBook.length 0
              { book := me₂.buyBook, agg := o₂, remaining := o₂.volume
                trades := [], clock := clk₂ }).clock } : Order).order_id =
          o₂.order_id from kid₂]
        exact removeById_map_strip me₁.sellBook me₂.sellBook o₁.order_id
          o₂.order_id hsb ocnt hiffS₁ hiffS₂
      · rw [if_neg (by rw [kfv, ovol]; exact hfull), if_neg hfull]
        refine ⟨kbook, ?_, ktr⟩
        refine replaceById_map_strip me₁.sellBook me₂.sellBook _ _ hsb
          (strip_set_status_only kagg .part_filled) ?_ ?_
        · intro x hx
          rw [show ({ (matchLoop me₁ (fun cp lp => lp ≤ cp)
              me₁.buyBook.length 0
              { book := me₁.buyBook, agg := o₁, remaining := o₁.volume
                trades := [], clock := clk₁ }).agg with
              status := OrderStatus.part_filled } : Order).order_id =
            o₁.order_id from kid₁]
          exact hiffS₁ x hx
        · intro x hx
          rw [show ({ (matchLoop me₂ (fun cp lp => lp ≤ cp)
              me₂.buyBook.length 0
              { book := me₂.buyBook, agg := o₂, remaining := o₂.volume
                trades := [], clock := clk₂ }).agg with
              status := OrderStatus.part_filled } : Order).order_id =
            o₂.order_id from kid₂]
          exact hiffS₂ x hx
    · rw [if_neg (by rw [kfv]; exact hpos), if_neg hpos]
      exact ⟨kbook, hsb, ktr⟩

/-- `add_order` is a function of the stripped engine state: with
strip-equal books, strip-equal orders carrying a fresh counter, and
equal rates, the resulting books are strip-equal, the rates are
untouched, and the produced trades agree on their cores — whatever the
two wall clocks and uuid draws were. -/
theorem add_order_strip (me₁ me₂ : MEState) (clk₁ clk₂ : ℕ) (o₁ o₂ : Order)
    (htc : me₁.transaction_cost = me₂.transaction_cost)
    (hslip : me₁.slippage = me₂.slippage)
    (hbb : me₁.buyBook.map stripOrder = me₂.buyBook.map stripOrder)
    (hsb : me₁.sellBook.map stripOrder = me₂.sellBook.map stripOrder)
    (ho : stripOrder o₁ = stripOrder o₂)
    (hf₁b : ∀ x ∈ me₁.buyBook, x.order_id.counter < o₁.order_id.counter)
    (hf₁s : ∀ x ∈ me₁.sellBook, x.order_id.counter < o₁.order_id.counter)
    (hf₂b : ∀ x ∈ me₂.buyBook, x.order_id.counter < o₂.order_id.counter)
    (hf₂s : ∀ x ∈ me₂.sellBook, x.order_id.counter < o₂.order_id.counter) :
    ((add_order me₁ clk₁ o₁).1.buyBook.map stripOrder =
      (add_order me₂ clk₂ o₂).1.buyBook.map stripOrder) ∧
    ((add_order me₁ clk₁ o₁).1.sellBook.map stripOrder =
      (add_order me₂ clk₂ o₂).1.sellBook.map stripOrder) ∧
    ((add_order me₁ clk₁ o₁).1.transaction_cost = me₁.transaction_cost) ∧
    ((add_order me₁ clk₁ o₁).1.slippage = me₁.slippage) ∧
    ((add_order me₂ clk₂ o₂).1.transaction_cost = me₂.transaction_cost) ∧
    ((add_order me₂ clk₂ o₂).1.slippage = me₂.slippage) ∧
    ((tradesOfAddResult (add_order me₁ clk₁ o₁).2.2).map tradeCore =
      (tradesOfAddResult (add_order me₂ clk₂ o₂).2.2).map tradeCore) := by
  obtain ⟨ocnt, osym, oact, opr, ovol, otyp, ots, ost, ofv, ofp, otc, osl⟩ :=
    stripOrder_comps ho
  have hcb : ∀ (a b a' b' : Order), stripOrder a = stripOrder a' →
      stripOrder b = stripOrder b' →
      ((fun x y => decide (y.price < x.price)) a b : Bool) =
        (fun x y => decide (y.price < x.price)) a' b' := by
    intro a b a' b' h1 h2
    simp only
    rw [(stripOrder_comps h1).2.2.2.1, (stripOrder_comps h2).2.2.2.1]
  have hcs : ∀ (a b a' b' : Order), stripOrder a = stripOrder a' →
      stripOrder b = stripOrder b' →
      ((fun x y => decide (x.price < y.price)) a b : Bool) =
        (fun x y => decide (x.price < y.price)) a' b' := by
    intro a b a' b' h1 h2
    simp only
    rw [(stripOrder_comps h1).2.2.2.1, (stripOrder_comps h2).2.2.2.1]
  cases hot : o₁.order_type
  · -- market
    have hot₂ : o₂.order_type = .market := by rw [← otyp, hot]
    simp only [add_order, hot, hot₂, match_market_order, tradesOfAddResult,
      List.map_cons, List.map_nil]
    refine ⟨hbb, hsb, by trivial, by trivial, by trivial, by trivial, ?_⟩
    cases hact : o₁.action
    · have hact₂ : o₂.action = .buy := by rw [← oact, hact]
      simp only [hact, hact₂]
      refine congrArg (fun t => [t]) ?_
      simp only [tradeCore, TradeCore.mk.injEq]
      exact ⟨osym, by trivial, by rw [opr, hslip], ovol,
        by rw [opr, hslip, ovol, htc], by trivial, by rw [opr, hslip]⟩
    · have hact₂ : o₂.action = .sell := by rw [← oact, hact]
      simp only [hact, hact₂]
      refine congrArg (fun t => [t]) ?_
      simp only [tradeCore, TradeCore.mk.injEq]
      exact ⟨osym, by trivial, by rw [opr, hslip], ovol,
        by rw [opr, hslip, ovol, htc], by trivial, by rw [opr, hslip]⟩
  · -- limit
    have hot₂ : o₂.order_type = .limit := by rw [← otyp, hot]
    cases hact : o₁.action
    · -- buy
      have hact₂ : o₂.action = .buy := by rw [← oact, hact]
      have H := match_limit_order_strip
        (sort_order_book { me₁ with buyBook := me₁.buyBook ++ [o₁] })
        (sort_order_book { me₂ with buyBook := me₂.buyBook ++ [o₂] })
        clk₁ clk₂ o₁ o₂ htc
        (sortByLt_map_strip _ hcb _ _ (by
          simp only [List.map_append, List.map_cons, List.map_nil, hbb, ho]))
        (sortByLt_map_strip _ hcs _ _ hsb)
        ho
        (sorted_book_iff me₁.buyBook o₁ _ hf₁b)
        (sorted_book_iff me₂.buyBook o₂ _ hf₂b)
        (fun x hx => fresh_book_iff me₁.sellBook o₁.order_id hf₁s x
          ((mem_sortByLt _ _ _).1 hx))
        (fun x hx => fresh_book_iff me₂.sellBook o₂.order_id hf₂s x
          ((mem_sortByLt _ _ _).1 hx))
      simp only [add_order, hot, hot₂, hact, hact₂, tradesOfAddResult]
      exact ⟨H.1, H.2.1, by trivial, by trivial, by trivial, by trivial, H.2.2⟩
    · -- sell
      have hact₂ : o₂.action = .sell := by rw [← oact, hact]
      have H := match_limit_order_strip
        (sort_order_book { me₁ with sellBook := me₁.sellBook ++ [o₁] })
        (sort_order_book { me₂ with sellBook := me₂.sellBook ++ [o₂] })
        clk₁ clk₂ o₁ o₂ htc
        (sortByLt_map_strip _ hcb _ _ hbb)
        (sortByLt_map_strip _ hcs _ _ (by
          simp only [List.map_append, List.map_cons, List.map_nil, hsb, ho]))
        ho
        (fun x hx => fresh_book_iff me₁.buyBook o₁.order_id hf₁b x
          ((mem_sortByLt _ _ _).1 hx))
        (fun x hx => fresh_book_iff me₂.buyBook o₂.order_id hf₂b x
          ((mem_sortByLt _ _ _).1 hx))
        (sorted_book_iff me₁.sellBook o₁ _ hf₁s)
        (sorted_book_iff me₂.sellBook o₂ _ hf₂s)
      simp only [add_order, hot, hot₂, hact, hact₂, tradesOfAddResult]
      exact ⟨H.1, H.2.1, by trivial, by trivial, by trivial, by trivial, H.2.2⟩
  · -- unsupported
    have hot₂ : o₂.order_type = .other := by rw [← otyp, hot]
    simp only [add_order, hot, hot₂, tradesOfAddResult, List.map_nil]
    exact ⟨hbb, hsb, by trivial, by trivial, by trivial, by trivial, by trivial⟩

/-- `create_order` reads nothing from the uuid stream but the suffix of
the id it mints: the bumped counter, the accept/reject decision and the
stripped order are identical for any two streams and stream positions. -/
theorem create_order_strip (p : BTParams) (cs : Account → ℚ → ℚ)
    (u₁ u₂ : ℕ → String) (acc : Account) (counter ui₁ ui₂ : ℕ)
    (sig : Signal) (bar : Bar) :
    ((create_order p cs u₁ acc counter ui₁ sig bar).1 = counter + 1) ∧
    ((create_order p cs u₂ acc counter ui₂ sig bar).1 = counter + 1) ∧
    (((create_order p cs u₁ acc counter ui₁ sig bar).2.2 = none) ↔
      ((create_order p cs u₂ acc counter ui₂ sig bar).2.2 = none)) ∧
    (∀ a b, (create_order p cs u₁ acc counter ui₁ sig bar).2.2 = some a →
      (create_order p cs u₂ acc counter ui₂ sig bar).2.2 = some b →
      stripOrder a = stripOrder b ∧ a.order_id.counter = counter + 1 ∧
        b.order_id.counter = counter + 1) := by
  simp only [create_order]
  by_cases hrej : (match sig.action with
    | Action.buy => decide (acc.cash < resolve_price sig bar *
        resolve_volume cs acc sig (resolve_price sig bar) *
        (1 + p.transaction_cost + p.slippage))
    | Action.sell =>
      match posLookup acc.positions sig.symbol with
      | none => true
      | some pos => decide (pos.volume <
          resolve_volume cs acc sig (resolve_price sig bar)) : Bool) = true
  · simp only [if_pos hrej]
    exact ⟨by trivial, by trivial, by trivial, fun a b ha _ => absurd ha (by simp)⟩
  · simp only [if_neg hrej]
    refine ⟨by trivial, by trivial, by simp, ?_⟩
    intro a b ha hb
    rw [Option.some_inj] at ha hb
    subst ha
    subst hb
    exact ⟨rfl, rfl, rfl⟩

/-- The ledger update reads only the trade's core fields. -/
theorem update_account_core (p : BTParams) (acc : Account) (t₁ t₂ : Trade)
    (h : tradeCore t₁ = tradeCore t₂) (a : Action) :
    update_account p acc t₁ a = update_account p acc t₂ a := by
  have hsym : t₁.symbol = t₂.symbol := congrArg TradeCore.symbol h
  have hpr : t₁.price = t₂.price := congrArg TradeCore.price h
  have hvol : t₁.volume = t₂.volume := congrArg TradeCore.volume h
  have htc : t₁.transaction_cost = t₂.transaction_cost :=
    congrArg TradeCore.transaction_cost h
  cases a <;> simp only [update_account] <;> rw [hsym, hpr, hvol, htc]

/-- Applying core-equal trade lists to the same ledger gives the same
ledger. -/
theorem foldl_update_account_core (p : BTParams) (a : Action) :
    ∀ (l₁ l₂ : List Trade), l₁.map tradeCore = l₂.map tradeCore →
      ∀ acc : Account,
        l₁.foldl (fun ac t => update_account p ac t a) acc =
          l₂.foldl (fun ac t => update_account p ac t a) acc := by
  intro l₁
  induction l₁ with
  | nil =>
    intro l₂ h acc
    cases l₂ with
    | nil => rfl
    | cons b bs => simp at h
  | cons x xs ih =>
    intro l₂ h acc
    cases l₂ with
    | nil => simp at h
    | cons y ys =>
      simp only [List.map_cons, List.cons.injEq] at h
      simp only [List.foldl_cons]
      rw [update_account_core p acc x y h.1 a]
      exact ih ys h.2 _

/-- Re-stamped recorded trades are determined by the cores and the bar
date. -/
theorem map_stripTrade_retime (d : ℕ) :
    ∀ (l₁ l₂ : List Trade), l₁.map tradeCore = l₂.map tradeCore →
      l₁.map (fun t => stripTrade { t with timestamp := d }) =
        l₂.map (fun t => stripTrade { t with timestamp := d }) := by
  intro l₁ l₂ h
  have e₁ : l₁.map (fun t => stripTrade { t with timestamp := d }) =
      (l₁.map tradeCore).map (fun c => (c, d)) := by
    rw [List.map_map]; rfl
  have e₂ : l₂.map (fun t => stripTrade { t with timestamp := d }) =
      (l₂.map tradeCore).map (fun c => (c, d)) := by
    rw [List.map_map]; rfl
  rw [e₁, e₂, h]

/-- Signal processing preserves the deterministic-projection relation
between two runs that differ only in wall clock and uuid stream, and
keeps the resting-book counter invariant on each side. -/
theorem processSignal_strip (p : BTParams) (cs : Account → ℚ → ℚ)
    (u₁ u₂ : ℕ → String) (bar : Bar) (sig : Signal) (st₁ st₂ : BTState)
    (hrel : StateRel st₁ st₂) (hinv₁ : CounterInv st₁)
    (hinv₂ : CounterInv st₂) :
    StateRel (processSignal p cs u₁ bar st₁ sig)
      (processSignal p cs u₂ bar st₂ sig) ∧
    CounterInv (processSignal p cs u₁ bar st₁ sig) ∧
    CounterInv (processSignal p cs u₂ bar st₂ sig) := by
  obtain ⟨hacc, hhist, htrades, hctr, hme⟩ := hrel
  have htc' : st₁.me.transaction_cost = st₂.me.transaction_cost :=
    congrArg (fun x => x.1) hme
  have hsl' : st₁.me.slippage = st₂.me.slippage :=
    congrArg (fun x => x.2.1) hme
  have hmb : st₁.me.buyBook.map stripOrder = st₂.me.buyBook.map stripOrder :=
    congrArg (fun x => x.2.2.1) hme
  have hms : st₁.me.sellBook.map stripOrder =
      st₂.me.sellBook.map stripOrder :=
    congrArg (fun x => x.2.2.2) hme
  have e₂ : create_order p cs u₂ st₁.account st₁.orderCounter st₂.uuidIdx
      sig bar = create_order p cs u₂ st₂.account st₂.orderCounter
      st₂.uuidIdx sig bar := by rw [hacc, hctr]
  have hco := create_order_strip p cs u₁ u₂ st₁.account st₁.orderCounter
    st₁.uuidIdx st₂.uuidIdx sig bar
  rw [e₂] at hco
  obtain ⟨hc₁, hc₂, hnone, hsome⟩ := hco
  cases hr₁ : (create_order p cs u₁ st₁.account st₁.orderCounter
      st₁.uuidIdx sig bar).2.2 with
  | none =>
    have hr₂ : (create_order p cs u₂ st₂.account st₂.orderCounter
        st₂.uuidIdx sig bar).2.2 = none := hnone.1 hr₁
    simp only [processSignal, hr₁, hr₂]
    refine ⟨⟨hacc, hhist, htrades, by rw [hc₁, hc₂, hctr], hme⟩, ?_, ?_⟩
    · intro x hx
      exact le_trans (hinv₁ x hx) (by rw [hc₁]; exact Nat.le_succ _)
    · intro x hx
      exact le_trans (hinv₂ x hx) (by rw [hc₂, hctr]; exact Nat.le_succ _)
  | some a =>
    cases hr₂ : (create_order p cs u₂ st₂.account st₂.orderCounter
        st₂.uuidIdx sig bar).2.2 with
    | none => exact absurd (hnone.2 hr₂) (by simp [hr₁])
    | some b =>
      obtain ⟨hstrip, hca, hcb⟩ := hsome a b hr₁ hr₂
      obtain ⟨scnt, ssym, sact, spr, svol, styp, sts, sst, sfv, sfp, stc,
        ssl⟩ := stripOrder_comps hstrip
      have hadd := add_order_strip st₁.me st₂.me st₁.clock st₂.clock a b
        htc' hsl' hmb hms hstrip
        (fun x hx => lt_of_le_of_lt
          (hinv₁ x (List.mem_append_left _ hx)) (by rw [hca]; exact Nat.lt_succ_self _))
        (fun x hx => lt_of_le_of_lt
          (hinv₁ x (List.mem_append_right _ hx)) (by rw [hca]; exact Nat.lt_succ_self _))
        (fun x hx => lt_of_le_of_lt
          (hinv₂ x (List.mem_append_left _ hx)) (by rw [hcb, hctr]; exact Nat.lt_succ_self _))
        (fun x hx => lt_of_le_of_lt
          (hinv₂ x (List.mem_append_right _ hx)) (by rw [hcb, hctr]; exact Nat.lt_succ_self _))
      obtain ⟨habb, habs, hatc₁, hasl₁, hatc₂, hasl₂, hatr⟩ := hadd
      have hbounds := add_order_counter_le st₁.me st₁.clock a
        (st₁.orderCounter + 1)
        (fun x hx => le_trans (hinv₁ x (List.mem_append_left _ hx))
          (Nat.le_succ _))
        (fun x hx => le_trans (hinv₁ x (List.mem_append_right _ hx))
          (Nat.le_succ _))
        (le_of_eq hca)
      have hbounds₂ := add_order_counter_le st₂.me st₂.clock b
        (st₂.orderCounter + 1)
        (fun x hx => le_trans (hinv₂ x (List.mem_append_left _ hx))
          (Nat.le_succ _))
        (fun x hx => le_trans (hinv₂ x (List.mem_append_right _ hx))
          (Nat.le_succ _))
        (by rw [hcb, hctr])
      simp only [processSignal, hr₁, hr₂]
      refine ⟨⟨?_, hhist, ?_, ?_, ?_⟩, ?_, ?_⟩
      · -- accounts after applying the trades
        rw [← sact, ← hacc]
        exact foldl_update_account_core p a.action _ _ hatr st₁.account
      · -- recorded trades
        simp only [List.map_append, List.map_map]
        rw [htrades]
        refine congrArg _ ?_
        have e1 : (tradesOfAddResult
            (add_order st₁.me st₁.clock a).2.2).map
            (stripTrade ∘ fun t => { t with timestamp := bar.date }) =
            (tradesOfAddResult (add_order st₁.me st₁.clock a).2.2).map
            (fun t => stripTrade { t with timestamp := bar.date }) := rfl
        have e2 : (tradesOfAddResult
            (add_order st₂.me st₂.clock b).2.2).map
            (stripTrade ∘ fun t => { t with timestamp := bar.date }) =
            (tradesOfAddResult (add_order st₂.me st₂.clock b).2.2).map
            (fun t => stripTrade { t with timestamp := bar.date }) := rfl
        rw [e1, e2]
        exact map_stripTrade_retime bar.date _ _ hatr
      · rw [hc₁, hc₂, hctr]
      · -- matching-engine observation
        simp only [meObs, Prod.mk.injEq]
        exact ⟨by rw [hatc₁, hatc₂, htc'], by rw [hasl₁, hasl₂, hsl'],
          habb, habs⟩
      · intro x hx
        rw [hc₁]
        rcases List.mem_append.1 hx with h1 | h1
        · exact hbounds.1 x h1
        · exact hbounds.2 x h1
      · intro x hx
        rw [hc₂, hctr]
        rcases List.mem_append.1 hx with h1 | h1
        · exact hbounds₂.1 x h1
        · exact hbounds₂.2 x h1

/-- Folding a bar's signals preserves the relation and the invariants. -/
theorem foldl_processSignal_strip (p : BTParams) (cs : Account → ℚ → ℚ)
    (u₁ u₂ : ℕ → String) (bar : Bar) :
    ∀ (sigs : List Signal) (st₁ st₂ : BTState),
      StateRel st₁ st₂ → CounterInv st₁ → CounterInv st₂ →
      StateRel (sigs.foldl (processSignal p cs u₁ bar) st₁)
        (sigs.foldl (processSignal p cs u₂ bar) st₂) ∧
      CounterInv (sigs.foldl (processSignal p cs u₁ bar) st₁) ∧
      CounterInv (sigs.foldl (processSignal p cs u₂ bar) st₂) := by
  intro sigs
  induction sigs with
  | nil => intro st₁ st₂ h h₁ h₂; exact ⟨h, h₁, h₂⟩
  | cons s ss ih =>
    intro st₁ st₂ h h₁ h₂
    obtain ⟨h', h₁', h₂'⟩ := processSignal_strip p cs u₁ u₂ bar s st₁ st₂ h h₁ h₂
    exact ih _ _ h' h₁' h₂'

/-- Snapshotting with a real bar date preserves the relation and the
invariants (the books and the counter are untouched). -/
theorem record_strip (st₁ st₂ : BTState) (data : List Bar) (step : ℕ)
    (b : Bar) (hbar : data.get? step = some b) (hrel : StateRel st₁ st₂)
    (hinv₁ : CounterInv st₁) (hinv₂ : CounterInv st₂) :
    StateRel (record_account_state st₁ data step)
      (record_account_state st₂ data step) ∧
    CounterInv (record_account_state st₁ data step) ∧
    CounterInv (record_account_state st₂ data step) := by
  obtain ⟨hacc, hhist, htrades, hctr, hme⟩ := hrel
  simp only [record_account_state, hbar]
  exact ⟨⟨hacc, by rw [hhist, hacc], htrades, hctr, hme⟩,
    fun x hx => hinv₁ x hx, fun x hx => hinv₂ x hx⟩

/-- One bar step preserves the relation and the invariants. -/
theorem barStep_strip (p : BTParams)
    (strategy : Bar → Account → List Signal) (cs : Account → ℚ → ℚ)
    (u₁ u₂ : ℕ → String) (data : List Bar) (step : ℕ)
    (st₁ st₂ : BTState) (hrel : StateRel st₁ st₂)
    (hinv₁ : CounterInv st₁) (hinv₂ : CounterInv st₂) :
    StateRel (barStep p strategy cs u₁ data st₁ step)
      (barStep p strategy cs u₂ data st₂ step) ∧
    CounterInv (barStep p strategy cs u₁ data st₁ step) ∧
    CounterInv (barStep p strategy cs u₂ data st₂ step) := by
  cases hbar : data.get? step with
  | none =>
    simp only [barStep, hbar]
    exact ⟨hrel, hinv₁, hinv₂⟩
  | some bar =>
    obtain ⟨hrec, hrc₁, hrc₂⟩ := record_strip st₁ st₂ data step bar hbar
      hrel hinv₁ hinv₂
    have hsig : strategy bar (record_account_state st₁ data step).account =
        strategy bar (record_account_state st₂ data step).account := by
      rw [hrec.1]
    obtain ⟨hf, hf₁, hf₂⟩ := foldl_processSignal_strip p cs u₁ u₂ bar
      (strategy bar (record_account_state st₁ data step).account)
      (record_account_state st₁ data step)
      (record_account_state st₂ data step) hrec hrc₁ hrc₂
    simp only [barStep, hbar]
    rw [← hsig]
    refine ⟨⟨?_, hf.2.1, hf.2.2.1, hf.2.2.2.1, hf.2.2.2.2⟩, ?_, ?_⟩
    · rw [hf.1]
    · exact fun x hx => hf₁ x hx
    · exact fun x hx => hf₂ x hx

/-- The whole main loop preserves the relation and the invariants. -/
theorem foldl_barStep_strip (p : BTParams)
    (strategy : Bar → Account → List Signal) (cs : Account → ℚ → ℚ)
    (u₁ u₂ : ℕ → String) (data : List Bar) :
    ∀ (steps : List ℕ) (st₁ st₂ : BTState),
      StateRel st₁ st₂ → CounterInv st₁ → CounterInv st₂ →
      StateRel (steps.foldl (barStep p strategy cs u₁ data) st₁)
        (steps.foldl (barStep p strategy cs u₂ data) st₂) ∧
      CounterInv (steps.foldl (barStep p strategy cs u₁ data) st₁) ∧
      CounterInv (steps.foldl (barStep p strategy cs u₂ data) st₂) := by
  intro steps
  induction steps with
  | nil => intro st₁ st₂ h h₁ h₂; exact ⟨h, h₁, h₂⟩
  | cons s ss ih =>
    intro st₁ st₂ h h₁ h₂
    obtain ⟨h', h₁', h₂'⟩ := barStep_strip p strategy cs u₁ u₂ data s st₁ st₂
      h h₁ h₂
    exact ih _ _ h' h₁' h₂'

/-! ### Claim theorems -/

/-- C1: after every mark-to-market step (`update_account_equity`) the
account satisfies `total_equity = cash + Σ position.market_value`, both
as a universal fact about the update itself and after each bar of any
run (the bar step ends in exactly this update). -/
theorem equity_identity_after_mark
    (p : BTParams) (acc : Account) (bar : Bar) :
    ((update_account_equity p acc bar).total_equity =
      (update_account_equity p acc bar).cash +
        (((update_account_equity p acc bar).positions.map
          (fun e => e.2.market_value)).sum)) ∧
    (∀ (strat : Bar → Account → List Signal) (calcSize : Account → ℚ → ℚ)
      (uuid : ℕ → String) (data : List Bar) (st : BTState) (step : ℕ)
      (b : Bar), data.get? step = some b →
      (barStep p strat calcSize uuid data st step).account.total_equity =
        (barStep p strat calcSize uuid data st step).account.cash +
          (((barStep p strat calcSize uuid data st step).account.positions.map
            (fun e => e.2.market_value)).sum)) := by
  constructor
  · simp [update_account_equity]
  · intro strat calcSize uuid data st step b hb
    simp only [barStep, hb]
    simp [update_account_equity]

/-- Witness for C1 at a concrete bar of a concrete run. -/
theorem equity_identity_after_mark_witness :
    ([bar0].get? 0 = some bar0) ∧
    ((barStep p100k strat0 calc0 uuid0 [bar0] c5st 0).account.total_equity =
      (barStep p100k strat0 calc0 uuid0 [bar0] c5st 0).account.cash +
        (((barStep p100k strat0 calc0 uuid0 [bar0] c5st 0).account.positions.map
          (fun e => e.2.market_value)).sum)) :=
  ⟨rfl, (equity_identity_after_mark p100k c5st.account bar0).2
    strat0 calc0 uuid0 [bar0] c5st 0 bar0 rfl⟩

/-- C4: a market order fills unconditionally at
`price ± price*slippage_rate` with fee `fill_price*volume*cost_rate`,
produces exactly one trade, is marked `filled` at once and never touches
the resting book; concretely, a 100-share buy at 10.00 with rates
0.0003/0.0001 fills at 10.001, costs 0.30003 ≈ 0.30 in fees, and a
100,000 ledger ends at 98,999.59997 ≈ 100,000 − 1,000.40. -/
theorem market_order_fill (me : MEState) (clock : ℕ) (order : Order)
    (h : order.order_type = .market) :
    ((add_order me clock order).1.buyBook = me.buyBook ∧
     (add_order me clock order).1.sellBook = me.sellBook ∧
     (add_order me clock order).2.2 =
       .market (match_market_order me clock order).2.1 ∧
     (add_order me clock order).1.trades =
       me.trades ++ [(match_market_order me clock order).2.1] ∧
     (match_market_order me clock order).1.status = .filled ∧
     (match_market_order me clock order).1.filled_volume = order.volume ∧
     (match_market_order me clock order).2.1.volume = order.volume ∧
     (match_market_order me clock order).2.1.price =
       (match order.action with
        | .buy => order.price + order.price * me.slippage
        | .sell => order.price - order.price * me.slippage) ∧
     (match_market_order me clock order).2.1.transaction_cost =
       (match_market_order me clock order).2.1.price * order.volume *
         me.transaction_cost) ∧
    ((match_market_order me100k 0 ordBuy100).2.1.price = 10001/1000 ∧
     (match_market_order me100k 0 ordBuy100).2.1.transaction_cost =
       30003/100000 ∧
     |(match_market_order me100k 0 ordBuy100).2.1.transaction_cost - 3/10| <
       1/100 ∧
     (update_account p100k (Account.fresh p100k)
       (match_market_order me100k 0 ordBuy100).2.1 .buy).cash =
       9899959997/100000 ∧
     |(update_account p100k (Account.fresh p100k)
       (match_market_order me100k 0 ordBuy100).2.1 .buy).cash -
         (100000 - 10004/10)| < 1/100) := by
  constructor
  · refine ⟨?_, ?_, ?_, ?_, ?_, ?_, ?_, ?_, ?_⟩ <;>
      simp [add_order, h, match_market_order]
  · norm_num [match_market_order, me100k, ordBuy100, MEState.fresh,
      update_account, Account.fresh, p100k, posLookup, posSet, abs]

/-- Witness for C4 at the concrete scenario order. -/
theorem market_order_fill_witness :
    (ordBuy100.order_type = .market) ∧
    (add_order me100k 0 ordBuy100).1.buyBook = me100k.buyBook :=
  ⟨rfl, (market_order_fill me100k 0 ordBuy100 rfl).1.1⟩

/-- C8 (the claim is the spec's stated requirement; the code violates it
in `PerformanceAnalyzer`): with zero equity samples the backtest engine
leaves the metrics empty without raising (`none`) and the analyzer
returns its empty object; but on a single-sample history — an empty
per-period return series — `PerformanceAnalyzer.calculate_return_metrics`
evaluates `annualization_factor / len(daily_returns) = 252 / 0` and
raises `ZeroDivisionError` (`AnalyzeOutcome.raised`), while the backtest
engine's own path again returns early without raising. -/
theorem metrics_empty_input_behaviour :
    analyze [] = .empty_result ∧
    analyze [(100000 : ℚ)] = .raised ∧
    calculate_return_metrics [(100000 : ℚ)] = none ∧
    calculate_performance_metrics [] [] = none ∧
    calculate_performance_metrics [sample100k] [] = none :=
  ⟨rfl, rfl, rfl, rfl, rfl⟩

/-- C9: the win/loss classifier compares each trade's price with itself,
so the winning-trade count is `0` for every trade list, and every
metrics object the engine actually produces reports `win_rate = 0`. -/
theorem win_rate_always_zero :
    (∀ trades : List Trade, winning_trades trades = 0) ∧
    (∀ (history : List EquitySample) (trades : List Trade) (m : PerfMetrics),
      calculate_performance_metrics history trades = some m →
      m.win_rate = 0) := by
  have hcount : ∀ trades : List Trade, winning_trades trades = 0 := by
    intro trades
    simp [winning_trades, List.filter_eq_nil_iff]
  refine ⟨hcount, ?_⟩
  intro history trades m hm
  match history with
  | [] => simp [calculate_performance_metrics] at hm
  | first :: rest =>
    rw [calculate_performance_metrics] at hm
    split at hm
    · exact absurd hm (by simp)
    · rw [Option.some_inj] at hm
      subst hm
      simp only [hcount, Nat.cast_zero]
      split
      · norm_num [round2]
      · norm_num [round2]

/-- Witness for C9 at a concrete two-sample run with one trade. -/
theorem win_rate_always_zero_witness :
    (calculate_performance_metrics c9hist c9trades = some c9m) ∧
    c9m.win_rate = 0 := by
  have h : calculate_performance_metrics c9hist c9trades = some c9m := by
    norm_num [calculate_performance_metrics, c9hist, c9trades, c9m, returnsOf,
      cumprodFrom, runningMax, runningMaxFrom, listMin, round2, round4,
      round_eq, winning_trades, List.zipWith, List.filter]
  exact ⟨h, (win_rate_always_zero).2 c9hist c9trades c9m h⟩

/-- C10: there are positive rates and a cash balance for which a buy
passes the funds check `price*volume*(1+cost+slip) ≤ cash` yet the
executed market buy debits `price*(1+slip)*volume*(1+cost)` — exceeding
the checked amount by `price*volume*slip*cost` — and leaves the ledger's
cash strictly negative: `cash ≥ 0` is not preserved by an approved buy. -/
theorem funds_check_not_sufficient :
    ∃ (p : BTParams) (acc : Account) (sig : Signal) (bar : Bar) (order : Order),
      0 < p.transaction_cost ∧ 0 < p.slippage ∧ 0 < acc.cash ∧
      (create_order p calc0 uuid0 acc 0 0 sig bar).2.2 = some order ∧
      (update_account p acc
        (match_market_order (MEState.fresh p.transaction_cost p.slippage) 0
          order).2.1 .buy).cash < 0 ∧
      acc.cash -
        (update_account p acc
          (match_market_order (MEState.fresh p.transaction_cost p.slippage) 0
            order).2.1 .buy).cash =
        order.price * (1 + p.slippage) * order.volume *
          (1 + p.transaction_cost) := by
  refine ⟨p100k, c10acc, c10sig, bar0, c10ord, by norm_num [p100k],
    by norm_num [p100k], by norm_num [c10acc, Account.fresh, p100k], ?_, ?_, ?_⟩
  · norm_num [create_order, resolve_price, resolve_volume, c10acc, c10sig,
      bar0, p100k, c10ord, Account.fresh, uuid0, posLookup]
  · norm_num [match_market_order, MEState.fresh, update_account, c10acc,
      c10ord, p100k, Account.fresh, posLookup, posSet]
  · norm_num [match_market_order, MEState.fresh, update_account, c10acc,
      c10ord, p100k, Account.fresh, posLookup, posSet]

/-- C5: a buy signal whose projected cost exceeds available cash, and a
sell signal whose volume exceeds the holding (or whose symbol has no
position), yield no order and leave the run state unchanged except for
the (always-bumped) order counter — rejection is a logged warning, not
an exception, and the signal loop moves on. -/
theorem insufficient_funds_holdings_reject
    (p : BTParams) (cs : Account → ℚ → ℚ) (uuid : ℕ → String)
    (bar : Bar) (st : BTState) (sig : Signal) :
    (sig.action = .buy →
      st.account.cash <
        resolve_price sig bar *
          resolve_volume cs st.account sig (resolve_price sig bar) *
          (1 + p.transaction_cost + p.slippage) →
      ((create_order p cs uuid st.account st.orderCounter st.uuidIdx sig
          bar).2.2 = none ∧
       processSignal p cs uuid bar st sig =
         { st with orderCounter := st.orderCounter + 1 })) ∧
    (sig.action = .sell →
      (∀ pos, posLookup st.account.positions sig.symbol = some pos →
        pos.volume <
          resolve_volume cs st.account sig (resolve_price sig bar)) →
      ((create_order p cs uuid st.account st.orderCounter st.uuidIdx sig
          bar).2.2 = none ∧
       processSignal p cs uuid bar st sig =
         { st with orderCounter := st.orderCounter + 1 })) := by
  constructor
  · intro ha hc
    have hco : create_order p cs uuid st.account st.orderCounter st.uuidIdx
        sig bar = (st.orderCounter + 1, st.uuidIdx, none) := by
      simp [create_order, ha, hc]
    exact ⟨by rw [hco], by simp [processSignal, hco]⟩
  · intro ha hpos
    have hco : create_order p cs uuid st.account st.orderCounter st.uuidIdx
        sig bar = (st.orderCounter + 1, st.uuidIdx, none) := by
      cases hp : posLookup st.account.positions sig.symbol with
      | none => simp [create_order, ha, hp]
      | some pos => simp [create_order, ha, hp, hpos pos hp]
    exact ⟨by rw [hco], by simp [processSignal, hco]⟩

/-- Witness for C5: the spec's insufficient-funds scenario (cash 100,
buy 1,000,000 at 10.00) and a sell with no position, both rejected. -/
theorem insufficient_funds_holdings_reject_witness :
    (processSignal p100k calc0 uuid0 bar0 c5st c5sigBuy =
      { c5st with orderCounter := 1 }) ∧
    (processSignal p100k calc0 uuid0 bar0 c5st c5sigSell =
      { c5st with orderCounter := 1 }) := by
  constructor
  · exact ((insufficient_funds_holdings_reject p100k calc0 uuid0 bar0 c5st
      c5sigBuy).1 rfl (by
        norm_num [c5st, c5acc, c5sigBuy, resolve_price, resolve_volume,
          Account.fresh, p100k])).2
  · exact ((insufficient_funds_holdings_reject p100k calc0 uuid0 bar0 c5st
      c5sigSell).2 rfl (by
        intro pos hpos
        simp [c5st, c5acc, c5sigSell, posLookup, Account.fresh, p100k] at hpos)).2

/-- C6: a sell trade credits
`price*volume − transaction_cost − price*volume*stamp_tax_rate` (the
stamp tax is a sell-only levy on top of the fee), shrinks the position
without recomputing its average cost, deletes the entry entirely when
its volume is exhausted, and never leaves a zero-volume entry behind. -/
theorem sell_ledger_update (p : BTParams) (acc : Account) (t : Trade)
    (pos : Position) (h : posLookup acc.positions t.symbol = some pos) :
    ((update_account p acc t .sell).cash =
      acc.cash + t.price * t.volume - t.transaction_cost -
        t.price * t.volume * p.stamp_tax) ∧
    (pos.volume ≤ t.volume →
      posLookup (update_account p acc t .sell).positions t.symbol = none) ∧
    (t.volume < pos.volume →
      posLookup (update_account p acc t .sell).positions t.symbol =
        some { volume := pos.volume - t.volume, avg_price := pos.avg_price
               market_value := (pos.volume - t.volume) * t.price }) ∧
    (∀ q, posLookup (update_account p acc t .sell).positions t.symbol =
      some q → 0 < q.volume) := by
  refine ⟨?_, ?_, ?_, ?_⟩
  · simp only [update_account, h]
    ring
  · intro h1
    simp only [update_account, h, if_pos h1]
    exact posLookup_posDelete_self acc.positions t.symbol
  · intro h1
    simp only [update_account, h, if_neg (not_le.2 h1)]
    exact posLookup_posSet_self acc.positions t.symbol _
  · intro q hq
    rcases le_or_lt pos.volume t.volume with h1 | h1
    · rw [(by
        simp only [update_account, h, if_pos h1]
        exact posLookup_posDelete_self acc.positions t.symbol :
          posLookup (update_account p acc t .sell).positions t.symbol = none)]
        at hq
      exact absurd hq (by simp)
    · rw [(by
        simp only [update_account, h, if_neg (not_le.2 h1)]
        exact posLookup_posSet_self acc.positions t.symbol _ :
          posLookup (update_account p acc t .sell).positions t.symbol =
            some { volume := pos.volume - t.volume, avg_price := pos.avg_price
                   market_value := (pos.volume - t.volume) * t.price })] at hq
      cases hq
      exact sub_pos.2 h1

/-- Witness for C6: selling the whole 100-share position deletes the
entry and credits 1000 − 0.30 − 1.00; selling 40 leaves 60 shares at the
unchanged 9.00 average cost. -/
theorem sell_ledger_update_witness :
    ((update_account p100k c6acc c6trade .sell).cash =
      1000 + 10 * 100 - 3/10 - 10 * 100 * p100k.stamp_tax) ∧
    (posLookup (update_account p100k c6acc c6trade .sell).positions
      c6trade.symbol = none) ∧
    (posLookup (update_account p100k c6acc c6trade40 .sell).positions
      c6trade40.symbol =
      some { volume := (100 : ℚ) - 40, avg_price := 9
             market_value := ((100 : ℚ) - 40) * 10 }) := by
  have h : posLookup c6acc.positions c6trade.symbol =
      some { volume := 100, avg_price := 9, market_value := 900 } := by
    simp [c6acc, c6trade, posLookup]
  have h40 : posLookup c6acc.positions c6trade40.symbol =
      some { volume := 100, avg_price := 9, market_value := 900 } := h
  refine ⟨?_, ?_, ?_⟩
  · exact (sell_ledger_update p100k c6acc c6trade _ h).1
  · exact (sell_ledger_update p100k c6acc c6trade _ h).2.1 (by norm_num [c6trade])
  · exact (sell_ledger_update p100k c6acc c6trade40 _ h40).2.2.1 (by norm_num [c6trade40, c6trade])

/-- C2: every trade a limit order produces is priced at a crossing
resting counter-order of the opposite book — a buy fills at some resting
sell's price with `sell.price ≤ buy.price` (so never at its own limit
when the resting price is strictly lower), and a sell fills at some
resting buy's price with `buy.price ≥ sell.price`. -/
theorem limit_fill_at_resting_price (me : MEState) (clock : ℕ)
    (order : Order) :
    (order.action = .buy →
      ∀ t ∈ (match_limit_order me clock order).trades,
        ∃ o ∈ me.sellBook, t.price = o.price ∧ o.price ≤ order.price ∧
          (o.price < order.price → t.price ≠ order.price)) ∧
    (order.action = .sell →
      ∀ t ∈ (match_limit_order me clock order).trades,
        ∃ o ∈ me.buyBook, t.price = o.price ∧ order.price ≤ o.price ∧
          (order.price < o.price → t.price ≠ order.price)) := by
  constructor
  · intro ha t ht
    rw [match_limit_order_trades_of_buy me clock order ha] at ht
    rcases matchLoop_trades_from_book me _ _ _ _ _ ht with h1 | ⟨o, ho, hp, hc⟩
    · exact absurd h1 (List.not_mem_nil t)
    · have hle : o.price ≤ order.price := of_decide_eq_true hc
      exact ⟨o, ho, hp, hle, fun hlt => by rw [hp]; exact ne_of_lt hlt⟩
  · intro ha t ht
    rw [match_limit_order_trades_of_sell me clock order ha] at ht
    rcases matchLoop_trades_from_book me _ _ _ _ _ ht with h1 | ⟨o, ho, hp, hc⟩
    · exact absurd h1 (List.not_mem_nil t)
    · have hle : order.price ≤ o.price := of_decide_eq_true hc
      exact ⟨o, ho, hp, hle, fun hlt => by rw [hp]; exact ne_of_gt hlt⟩

/-- Witness for C2: the 50-share limit buy at 10.00 against the resting
100-share sell at 9.00 fills at the resting price. -/
theorem limit_fill_at_resting_price_witness :
    (c2trades.headD tradeDefault ∈ c2trades) ∧
    ∃ o ∈ c2me.sellBook,
      (c2trades.headD tradeDefault).price = o.price ∧
      o.price ≤ c2buy.price ∧
      (o.price < c2buy.price →
        (c2trades.headD tradeDefault).price ≠ c2buy.price) := by
  have hmem : c2trades.headD tradeDefault ∈ c2trades := by
    have hc2 : c2trades.length = 1 := by
      norm_num [c2trades, match_limit_order, matchLoop, c2me, c2buy, me100k,
        MEState.fresh, c3sell, min_def]
    match hv : c2trades, hc2 with
    | [t], _ => simp
  exact ⟨hmem,
    (limit_fill_at_resting_price c2me 0 c2buy).1 rfl _ hmem⟩

/-- C3 counterexample: a limit buy for 200 shares at 10.00 against two
crossing resting sells of 100 shares each at 9.00.  The claim predicts
both resting sells are considered while the aggressor still has volume;
the code fully fills and removes the first, the in-place removal slides
the second sell under the advancing scan index, and matching stops: one
trade, the second (crossing, `9 ≤ 10`) sell untouched and still
`pending` with `filled_volume = 0`, the aggressor left `partially_filled`
at 100 of its 200 shares. -/
theorem matching_considers_all_crossing_cex :
    c3trades.length = 1 ∧
    c3res.1.sellBook.map
      (fun o => (o.order_id.counter, o.filled_volume, o.status)) =
      [(3, 0, OrderStatus.pending)] ∧
    (c3sell 3).price ≤ c3buy.price ∧
    c3res.1.buyBook.map
      (fun o => (o.order_id.counter, o.filled_volume, o.status)) =
      [(4, (100 : ℚ), OrderStatus.part_filled)] ∧
    c3buy.volume = 200 := by
  norm_num [c3res, c3trades, add_order, sort_order_book, sortByLt, insertByLt,
    match_limit_order, matchLoop, c3me, c3buy, c3sell, me100k, MEState.fresh,
    removeById, replaceById, min_def]

/-- C3 (amended): matching scans the opposite book once by an advancing
index; a resting order that is fully filled is removed and the scan then
skips the resting order that slid into its slot — so a crossing resting
order can remain unconsidered although the aggressor still has remaining
volume; no resting order whose fill reached its volume is retained, and
retained resting orders keep their id, status, price and volume; the
aggressor is marked `filled` when fully filled and `partially_filled`
when partially filled. -/
theorem matching_scan_semantics :
    (∀ (me : MEState) (crosses : ℚ → ℚ → Bool) (fuel i : ℕ)
      (s : LimitLoopSt),
      (∀ o ∈ s.book, o.filled_volume < o.volume) →
      ∀ o ∈ (matchLoop me crosses fuel i s).book,
        ∃ o₀ ∈ s.book, o.order_id = o₀.order_id ∧ o.status = o₀.status ∧
          o.price = o₀.price ∧ o.volume = o₀.volume ∧
          o₀.filled_volume ≤ o.filled_volume ∧
          o.filled_volume < o.volume) ∧
    (∀ (me : MEState) (agg s₁ s₂ : Order) (clock : ℕ),
      agg.filled_volume = 0 → s₁.filled_volume = 0 →
      s₁.price ≤ agg.price → 0 < s₁.volume → s₁.volume < agg.volume →
      (matchLoop me (fun cp lp => cp ≤ lp) 2 0
        { book := [s₁, s₂], agg := agg, remaining := agg.volume
          trades := [], clock := clock }).book = [s₂] ∧
      0 < (matchLoop me (fun cp lp => cp ≤ lp) 2 0
        { book := [s₁, s₂], agg := agg, remaining := agg.volume
          trades := [], clock := clock }).remaining) ∧
    (∀ (me : MEState) (clock : ℕ) (order : Order),
      (0 < (match_limit_order me clock order).agg.filled_volume →
        order.volume ≤ (match_limit_order me clock order).agg.filled_volume →
        (match_limit_order me clock order).agg.status = .filled) ∧
      (0 < (match_limit_order me clock order).agg.filled_volume →
        (match_limit_order me clock order).agg.filled_volume < order.volume →
        (match_limit_order me clock order).agg.status = .part_filled)) := by
  refine ⟨matchLoop_book_inv, ?_, match_limit_order_agg_marking⟩
  intro me agg s₁ s₂ clock ha0 hf1 hc1 hv1 hlt
  have h := matchLoop_skips_after_removal me agg s₁ s₂ clock ha0 hf1 hc1 hv1 hlt
  exact ⟨h.1, h.2.2.2.1⟩

/-- Witness for the amended C3 at the two-sell scenario. -/
theorem matching_scan_semantics_witness :
    ((matchLoop me100k (fun cp lp => cp ≤ lp) 2 0
      { book := [c3sell 2, c3sell 3], agg := c3buy, remaining := c3buy.volume
        trades := [], clock := 0 }).book = [c3sell 3] ∧
     0 < (matchLoop me100k (fun cp lp => cp ≤ lp) 2 0
      { book := [c3sell 2, c3sell 3], agg := c3buy, remaining := c3buy.volume
        trades := [], clock := 0 }).remaining) ∧
    ((0 : ℚ) <
        (match_limit_order c2me 0 c2buy).agg.filled_volume →
      (match_limit_order c2me 0 c2buy).agg.filled_volume < c2buy.volume →
      (match_limit_order c2me 0 c2buy).agg.status = .part_filled) :=
  ⟨(matching_scan_semantics).2.1 me100k c3buy (c3sell 2) (c3sell 3) 0 rfl rfl
      (by norm_num [c3sell, c3buy]) (by norm_num [c3sell])
      (by norm_num [c3sell, c3buy]),
    ((matching_scan_semantics).2.2 c2me 0 c2buy).2⟩

/-- C7 counterexample: the same one-bar data and strategy, run twice in
sequence (`reset()` rebuilds the engine state, but the wall clock has
advanced and the uuid stream does not rewind).  The `account_history`
lists are byte-identical, but the `trades` lists are not: the second
run's trade carries a later `datetime.now()`-derived trade id. -/
theorem run_repeat_not_byte_identical :
    c7first.accountHistory = c7second.accountHistory ∧
    c7first.tradesRes ≠ c7second.tradesRes := by
  constructor <;>
    norm_num [c7first, c7second, run, record_account_state, barStep,
      processSignal, create_order, resolve_price, resolve_volume, add_order,
      match_market_order, update_account, update_account_equity, posLookup,
      posSet, Account.fresh, MEState.fresh, tradesOfAddResult, strat0, calc0,
      uuid0, p100k, bar0, List.range_succ]

/-- C7 (amended): for fixed data, strategy and parameters, two runs are
identical in everything except the wall-clock-derived trade ids and the
random uuid suffixes of order ids: `account_history` is byte-identical,
the `trades` lists agree after dropping `trade_id` and `order_id` (all
economic fields and timestamps coincide), and the final accounts are
identical — for any two starting clock values and uuid stream
positions. -/
theorem run_deterministic_up_to_ids (p : BTParams)
    (strategy : Bar → Account → List Signal) (cs : Account → ℚ → ℚ)
    (u₁ u₂ : ℕ → String) (data : List Bar) (c₁ c₂ i₁ i₂ : ℕ)
    (hne : data ≠ []) :
    ((run p strategy cs u₁ data c₁ i₁).accountHistory =
      (run p strategy cs u₂ data c₂ i₂).accountHistory) ∧
    ((run p strategy cs u₁ data c₁ i₁).tradesRes.map stripTrade =
      (run p strategy cs u₂ data c₂ i₂).tradesRes.map stripTrade) ∧
    ((run p strategy cs u₁ data c₁ i₁).account =
      (run p strategy cs u₂ data c₂ i₂).account) := by
  obtain ⟨d, ds, rfl⟩ : ∃ d ds, data = d :: ds := by
    cases data with
    | nil => exact absurd rfl hne
    | cons d ds => exact ⟨d, ds, rfl⟩
  have hinv0 : ∀ (c i : ℕ), CounterInv
      { account := Account.fresh p
        me := MEState.fresh p.transaction_cost p.slippage
        tradesRes := []
        accountHistory := []
        orderCounter := 0
        clock := c
        uuidIdx := i } := by
    intro c i x hx
    simp [MEState.fresh] at hx
  have hrel0 : StateRel
      { account := Account.fresh p
        me := MEState.fresh p.transaction_cost p.slippage
        tradesRes := []
        accountHistory := []
        orderCounter := 0
        clock := c₁
        uuidIdx := i₁ }
      { account := Account.fresh p
        me := MEState.fresh p.transaction_cost p.slippage
        tradesRes := []
        accountHistory := []
        orderCounter := 0
        clock := c₂
        uuidIdx := i₂ } := ⟨rfl, rfl, rfl, rfl, rfl⟩
  obtain ⟨hrec1, hi11, hi12⟩ := record_strip _ _ (d :: ds) 0 d rfl hrel0
    (hinv0 c₁ i₁) (hinv0 c₂ i₂)
  obtain ⟨hfold, hf1, hf2⟩ := foldl_barStep_strip p strategy cs u₁ u₂
    (d :: ds) (List.range (d :: ds).length) _ _ hrec1 hi11 hi12
  have hlast : ∃ b, (d :: ds).get? ((d :: ds).length - 1) = some b :=
    ⟨_, List.get?_eq_get (by simp)⟩
  obtain ⟨bz, hbz⟩ := hlast
  obtain ⟨hfin, _, _⟩ := record_strip _ _ (d :: ds)
    ((d :: ds).length - 1) bz hbz hfold hf1 hf2
  simp only [run]
  exact ⟨hfin.2.1, hfin.2.2.1, hfin.1⟩

/-- Witness for the amended C7 at the concrete one-bar scenario: the
account histories of two runs starting at different clock values and
uuid stream positions coincide. -/
theorem run_deterministic_up_to_ids_witness :
    (([bar0] : List Bar) ≠ []) ∧
    ((run p100k strat0 calc0 uuid0 [bar0] 0 0).accountHistory =
      (run p100k strat0 calc0 uuid0 [bar0] 5 1).accountHistory) :=
  ⟨by simp, (run_deterministic_up_to_ids p100k strat0 calc0 uuid0 uuid0
    [bar0] 0 5 0 1 (by simp)).1⟩

end StockV1
